import Mathlib

/-!
# Verification of the Cook Tap kitchen-simulation core

A shallow embedding of the recipe/order/station state machine of the
Cook Tap game (files `js/dish-system.js`, `js/cooking-stations.js`,
`js/game.js` and the order-system file), together with theorems checking
the natural-language specification against this embedding.

JavaScript `Map`s are modelled as association lists (`List (κ × β)`):
`Map.get` is `List.lookup`, `Map.set` is `setA` (update in place when the
key is present, append otherwise — matching the insertion-order semantics
of `Map`), `Map.delete` is `delA`.  In-place mutation of a value stored in
a `Map` is `updA`.  JavaScript `Set`s of ingredient ids are `List String`
with membership via `List.contains`.

View-layer data (DOM elements, colors, key symbols, human-readable step
descriptions) and the wall clock are outside the embedding: every
time-dependent operation takes the current time `now` (milliseconds, as
`Date.now()`) as an explicit argument.
-/

namespace CookTap

/-- `Map.set`: replace the value at `k` in place if present, else append. -/
def setA {κ β : Type} [BEq κ] (m : List (κ × β)) (k : κ) (v : β) : List (κ × β) :=
  if m.any (fun p => p.1 == k) then m.map (fun p => if p.1 == k then (k, v) else p)
  else m ++ [(k, v)]

/-- `Map.delete`: remove every pair whose key is `k`. -/
def delA {κ β : Type} [BEq κ] (m : List (κ × β)) (k : κ) : List (κ × β) :=
  m.filter (fun p => !(p.1 == k))

/-- In-place mutation of the value stored under key `k`. -/
def updA {κ β : Type} [BEq κ] (m : List (κ × β)) (k : κ) (f : β → β) : List (κ × β) :=
  m.map (fun p => if p.1 == k then (p.1, f p.2) else p)

/-- One preparation step of one ingredient within one recipe
(`{ action, station?, time?, ... }` in `initializeDishes`). -/
structure PrepStep where
  action : String
  station : Option String
  time : Option Nat
deriving DecidableEq

/-- One final-assembly step of a dish (same shape as `PrepStep`). -/
structure FinalStep where
  action : String
  station : Option String
  time : Option Nat
deriving DecidableEq

/-- One entry of a dish's `ingredients` array. -/
structure IngredientSpec where
  id : String
  required : Bool
  prepSteps : List PrepStep
deriving DecidableEq

/-- The per-ingredient progress record stored in `dish.ingredientStates`
(field `added` of the source record is constantly `true` and omitted). -/
structure IngState where
  prepStepsCompleted : Nat
  isReady : Bool
deriving DecidableEq

/-- A dish object as stored in `DishSystem.dishes` by `addDish`: the static
recipe data spread from `dishData` plus the mutable per-dish instance state
(`currentIngredients`, `ingredientStates`, `finalStepsProgress`,
`isComplete`). -/
structure Dish where
  id : String
  name : String
  station : String
  ingredients : List IngredientSpec
  finalSteps : List FinalStep
  difficulty : Nat
  prepTime : Nat
  currentIngredients : List String
  ingredientStates : List (String × IngState)
  finalStepsProgress : Nat
  isComplete : Bool
deriving DecidableEq

/-- An ingredient definition as stored by `DishSystem.addIngredient`
(display color, key symbol and derived class name omitted). -/
structure IngredientDef where
  id : String
  name : String
  type : String
deriving DecidableEq

/-- A tool definition as stored by `DishSystem.addTool`. -/
structure ToolDef where
  id : String
  name : String
  type : String
deriving DecidableEq

/-- A cooking-station configuration as stored by
`initializeCookingStations`; `cookingSlots` is absent for the prep
station. -/
structure StationDef where
  name : String
  allowedActions : List String
  cookingSlots : Option Nat
deriving DecidableEq

/-- The `DishSystem` object: reference data plus (inside each `Dish`)
mutable per-dish state. -/
structure DishSystem where
  dishes : List (String × Dish)
  ingredients : List (String × IngredientDef)
  tools : List (String × ToolDef)
  cookingStations : List (String × StationDef)
deriving DecidableEq

/-- `DishSystem.getDish`. -/
def getDish (sys : DishSystem) (id : String) : Option Dish :=
  List.lookup id sys.dishes

/-- `DishSystem.getAllDishes`. -/
def getAllDishes (sys : DishSystem) : List Dish :=
  sys.dishes.map (fun p => p.2)

/-- `DishSystem.getIngredient`. -/
def getIngredient (sys : DishSystem) (id : String) : Option IngredientDef :=
  List.lookup id sys.ingredients

/-- `DishSystem.getTool`. -/
def getTool (sys : DishSystem) (id : String) : Option ToolDef :=
  List.lookup id sys.tools

/-- `DishSystem.getCookingStation`. -/
def getCookingStation (sys : DishSystem) (id : String) : Option StationDef :=
  List.lookup id sys.cookingStations

/-- `DishSystem.addIngredientToDish` acting on the dish object it mutates:
fails when the ingredient is not in the recipe or already added, else adds
it to `currentIngredients` and installs the initial progress record, ready
iff the ingredient has no prep steps. -/
def addIngredientToDish (dish : Dish) (ingredientId : String) : Dish × Bool :=
  match dish.ingredients.find? (fun ing => ing.id == ingredientId) with
  | none => (dish, false)
  | some ing =>
    if dish.currentIngredients.contains ingredientId then (dish, false)
    else
      ({ dish with
          currentIngredients := dish.currentIngredients ++ [ingredientId],
          ingredientStates := setA dish.ingredientStates ingredientId
            { prepStepsCompleted := 0, isReady := ing.prepSteps.length == 0 } }, true)

/-- The mutation of a successful ingredient-prep advance inside
`useToolOnDish` (lines 454–458): increment the ingredient's counter and
mark it ready once the counter reaches the number of prep steps. -/
def advancePrep (dish : Dish) (ing : IngredientSpec) (s : IngState) : Dish :=
  let s2 : IngState :=
    { prepStepsCompleted := s.prepStepsCompleted + 1,
      isReady := if ing.prepSteps.length ≤ s.prepStepsCompleted + 1 then true
                 else s.isReady }
  { dish with ingredientStates := setA dish.ingredientStates ing.id s2 }

/-- The mutation of a successful final-step advance inside `useToolOnDish`
(lines 469–473). -/
def advanceFinal (dish : Dish) : Dish :=
  { dish with
      finalStepsProgress := dish.finalStepsProgress + 1,
      isComplete := if dish.finalSteps.length ≤ dish.finalStepsProgress + 1 then true
                    else dish.isComplete }

/-- The ingredient loop of `DishSystem.useToolOnDish` (lines 446–463):
scan `dish.ingredients` in recipe order, skip ingredients that are not
added, have no state record, or are ready; advance the first one whose
next prep step's action equals the tool.  Returns the mutated dish, or
`none` when no ingredient advanced. -/
def useToolPrepLoop (dish : Dish) (toolId : String) :
    List IngredientSpec → Option Dish
  | [] => none
  | ing :: rest =>
    if dish.currentIngredients.contains ing.id then
      match List.lookup ing.id dish.ingredientStates with
      | none => useToolPrepLoop dish toolId rest
      | some s =>
        if s.isReady then useToolPrepLoop dish toolId rest
        else
          match ing.prepSteps.get? s.prepStepsCompleted with
          | some step =>
            if step.action == toolId then some (advancePrep dish ing s)
            else useToolPrepLoop dish toolId rest
          | none => useToolPrepLoop dish toolId rest
    else useToolPrepLoop dish toolId rest

/-- `DishSystem.useToolOnDish`: try the ingredient-prep loop first; only
when no ingredient advanced, try the current final step. -/
def useToolOnDish (dish : Dish) (toolId : String) : Dish × Bool :=
  match useToolPrepLoop dish toolId dish.ingredients with
  | some d => (d, true)
  | none =>
    match dish.finalSteps.get? dish.finalStepsProgress with
    | some step =>
      if step.action == toolId then (advanceFinal dish, true)
      else (dish, false)
    | none => (dish, false)

/-- `DishSystem.isDishValid` on the dish object: every required ingredient
is added and its state record is present and ready. -/
def isDishValid (dish : Dish) : Bool :=
  (dish.ingredients.filter (fun ing => ing.required)).all (fun ing =>
    dish.currentIngredients.contains ing.id &&
      match List.lookup ing.id dish.ingredientStates with
      | some s => s.isReady
      | none => false)

/-- `DishSystem.resetDish` on the dish object. -/
def resetDish (dish : Dish) : Dish :=
  { dish with currentIngredients := [], ingredientStates := [],
              finalStepsProgress := 0, isComplete := false }

/-- The per-item dish mutation inside `retrieveCookedItems`
(`game.js` lines 491–497): if the retrieved item's ingredient has a state
record, set its `isReady` flag to `true` (the prep-step counter is not
touched). -/
def markIngredientRetrieved (dish : Dish) (ingredientId : String) : Dish :=
  match List.lookup ingredientId dish.ingredientStates with
  | none => dish
  | some s =>
    let s2 : IngState := { s with isReady := true }
    { dish with ingredientStates := setA dish.ingredientStates ingredientId s2 }

/-- `DishSystem.addIngredientToDish` at system level (mutating the dish
stored in the `dishes` map). -/
def sysAddIngredientToDish (sys : DishSystem) (dishId ingredientId : String) :
    DishSystem × Bool :=
  match getDish sys dishId with
  | none => (sys, false)
  | some dish =>
    let r := addIngredientToDish dish ingredientId
    ({ sys with dishes := setA sys.dishes dishId r.1 }, r.2)

/-- `DishSystem.useToolOnDish` at system level. -/
def sysUseToolOnDish (sys : DishSystem) (dishId toolId : String) :
    DishSystem × Bool :=
  match getDish sys dishId with
  | none => (sys, false)
  | some dish =>
    let r := useToolOnDish dish toolId
    ({ sys with dishes := setA sys.dishes dishId r.1 }, r.2)

/-- `DishSystem.resetDish` at system level. -/
def sysResetDish (sys : DishSystem) (dishId : String) : DishSystem × Bool :=
  match getDish sys dishId with
  | none => (sys, false)
  | some dish =>
    ({ sys with dishes := setA sys.dishes dishId (resetDish dish) }, true)

/-- The `retrieveCookedItems` dish mutation at system level. -/
def sysMarkIngredientRetrieved (sys : DishSystem) (dishId ingredientId : String) :
    DishSystem :=
  match getDish sys dishId with
  | none => sys
  | some dish =>
    { sys with dishes := setA sys.dishes dishId (markIngredientRetrieved dish ingredientId) }

/-- A dish as first stored by `addDish` — recipe data plus empty instance
state. -/
def mkDish (id name station : String) (ingredients : List IngredientSpec)
    (finalSteps : List FinalStep) (difficulty prepTime : Nat) : Dish :=
  { id, name, station, ingredients, finalSteps, difficulty, prepTime,
    currentIngredients := [], ingredientStates := [],
    finalStepsProgress := 0, isComplete := false }

/-- The dish table built by `initializeDishes`. -/
def catalogDishes : List (String × Dish) :=
  [ ("classic_burger", mkDish "classic_burger" "Classic Burger" "prep"
      [ ⟨"burger_bun", true, [⟨"slice", none, none⟩]⟩,
        ⟨"beef_patty", true, [⟨"grill", some "grill", some 3000⟩]⟩,
        ⟨"lettuce", false, [⟨"chop", none, none⟩]⟩,
        ⟨"tomato", false, [⟨"slice", none, none⟩]⟩,
        ⟨"cheese", false, []⟩,
        ⟨"pickles", false, []⟩,
        ⟨"ketchup", false, []⟩,
        ⟨"mustard", false, []⟩ ]
      [ ⟨"assemble", none, none⟩, ⟨"plate", none, none⟩ ] 2 45),
    ("margherita_pizza", mkDish "margherita_pizza" "Margherita Pizza" "prep"
      [ ⟨"pizza_dough", true, []⟩,
        ⟨"tomato_sauce", true, [⟨"mix", none, none⟩]⟩,
        ⟨"mozzarella", true, []⟩,
        ⟨"oregano", false, []⟩ ]
      [ ⟨"bake", some "stove", some 8000⟩, ⟨"plate", none, none⟩ ] 3 60),
    ("fried_chicken", mkDish "fried_chicken" "Fried Chicken" "prep"
      [ ⟨"chicken_breast", true, [⟨"fry", some "fryer", some 5000⟩]⟩,
        ⟨"salt", true, []⟩,
        ⟨"pepper", true, []⟩ ]
      [ ⟨"plate", none, none⟩ ] 2 35),
    ("caesar_salad", mkDish "caesar_salad" "Caesar Salad" "prep"
      [ ⟨"lettuce", true, [⟨"chop", none, none⟩]⟩,
        ⟨"chicken_breast", true,
          [⟨"grill", some "grill", some 4000⟩, ⟨"slice", none, none⟩]⟩,
        ⟨"cheese", false, []⟩,
        ⟨"mayo", false, []⟩ ]
      [ ⟨"toss", none, none⟩, ⟨"plate", none, none⟩ ] 3 50),
    ("pasta_marinara", mkDish "pasta_marinara" "Pasta Marinara" "prep"
      [ ⟨"pasta", true, [⟨"boil", some "stove", some 6000⟩]⟩,
        ⟨"tomato_sauce", true, []⟩,
        ⟨"oregano", false, []⟩,
        ⟨"cheese", false, []⟩ ]
      [ ⟨"mix", none, none⟩, ⟨"plate", none, none⟩ ] 2 40) ]

/-- The ingredient table built by `initializeIngredients`. -/
def catalogIngredients : List (String × IngredientDef) :=
  [ ("beef_patty", ⟨"beef_patty", "Beef Patty", "meat"⟩),
    ("chicken_breast", ⟨"chicken_breast", "Chicken Breast", "meat"⟩),
    ("bacon", ⟨"bacon", "Bacon", "meat"⟩),
    ("lettuce", ⟨"lettuce", "Lettuce", "vegetable"⟩),
    ("tomato", ⟨"tomato", "Tomato", "vegetable"⟩),
    ("onion", ⟨"onion", "Onion", "vegetable"⟩),
    ("pickles", ⟨"pickles", "Pickles", "vegetable"⟩),
    ("mushrooms", ⟨"mushrooms", "Mushrooms", "vegetable"⟩),
    ("bell_pepper", ⟨"bell_pepper", "Bell Pepper", "vegetable"⟩),
    ("cheese", ⟨"cheese", "Cheese", "dairy"⟩),
    ("mozzarella", ⟨"mozzarella", "Mozzarella", "dairy"⟩),
    ("butter", ⟨"butter", "Butter", "dairy"⟩),
    ("burger_bun", ⟨"burger_bun", "Burger Bun", "grain"⟩),
    ("pizza_dough", ⟨"pizza_dough", "Pizza Dough", "grain"⟩),
    ("pasta", ⟨"pasta", "Pasta", "grain"⟩),
    ("ketchup", ⟨"ketchup", "Ketchup", "sauce"⟩),
    ("mustard", ⟨"mustard", "Mustard", "sauce"⟩),
    ("mayo", ⟨"mayo", "Mayo", "sauce"⟩),
    ("tomato_sauce", ⟨"tomato_sauce", "Tomato Sauce", "sauce"⟩),
    ("salt", ⟨"salt", "Salt", "seasoning"⟩),
    ("pepper", ⟨"pepper", "Pepper", "seasoning"⟩),
    ("oregano", ⟨"oregano", "Oregano", "seasoning"⟩) ]

/-- The tool table built by `initializeTools`. -/
def catalogTools : List (String × ToolDef) :=
  [ ("chop", ⟨"chop", "Chop", "cut"⟩),
    ("slice", ⟨"slice", "Slice", "cut"⟩),
    ("grill", ⟨"grill", "Grill", "cook"⟩),
    ("fry", ⟨"fry", "Deep Fry", "cook"⟩),
    ("boil", ⟨"boil", "Boil", "cook"⟩),
    ("bake", ⟨"bake", "Bake", "cook"⟩),
    ("mix", ⟨"mix", "Mix", "mix"⟩),
    ("toss", ⟨"toss", "Toss", "mix"⟩),
    ("assemble", ⟨"assemble", "Assemble", "mix"⟩),
    ("plate", ⟨"plate", "Plate", "serve"⟩) ]

/-- The station table built by `initializeCookingStations`. -/
def catalogStations : List (String × StationDef) :=
  [ ("prep", ⟨"Prep Station", ["chop", "slice", "mix", "toss", "assemble", "plate"], none⟩),
    ("grill", ⟨"Grill Station", ["grill"], some 3⟩),
    ("fryer", ⟨"Deep Fryer", ["fry"], some 2⟩),
    ("stove", ⟨"Stove Station", ["boil", "bake"], some 4⟩) ]

/-- The `DishSystem` as built by its constructor. -/
def initialDishSystem : DishSystem :=
  { dishes := catalogDishes, ingredients := catalogIngredients,
    tools := catalogTools, cookingStations := catalogStations }

/-! ## Order system (order-system file) -/

/-- An `Order` object.  `timeLimit` and `createdAt` are in milliseconds;
the DOM `element` field is outside the model.  `rating` is `none` until
the order is completed or expired. -/
structure Order where
  id : String
  dishId : String
  dishName : String
  timeLimit : Nat
  createdAt : Nat
  isComplete : Bool
  isActive : Bool
  rating : Option String
deriving DecidableEq

/-- The `Order` constructor: the source takes the limit in seconds and
stores `timeLimit * 1000`; here the millisecond value is passed directly
(the id, normally derived from `Date.now()` and `Math.random()`, is a
parameter). -/
def mkOrder (id dishId dishName : String) (timeLimitMs createdAt : Nat) : Order :=
  { id, dishId, dishName, timeLimit := timeLimitMs, createdAt,
    isComplete := false, isActive := false, rating := none }

/-- `Order.getRemainingTime`: `Math.ceil(max(0, timeLimit − (now − createdAt)) / 1000)`,
in whole seconds. -/
def Order.getRemainingTime (o : Order) (now : Nat) : Nat :=
  let elapsed : Int := (now : Int) - (o.createdAt : Int)
  let remaining : Int := max 0 ((o.timeLimit : Int) - elapsed)
  (remaining.toNat + 999) / 1000

/-- `Order.complete`: mark terminal with the given rating. -/
def Order.complete (o : Order) (rating : String) : Order :=
  { o with isComplete := true, rating := some rating }

/-- The `OrderSystem` object (DOM fields, spawn timers and the running
flag are outside the model). -/
structure OrderSystem where
  activeOrders : List (String × Order)
  completedOrders : List Order
  maxActiveOrders : Nat
  totalScore : Int
  ordersCompleted : Nat
  perfectOrders : Nat
deriving DecidableEq

/-- The `OrderSystem` as built by its constructor. -/
def initOrderSystem : OrderSystem :=
  { activeOrders := [], completedOrders := [], maxActiveOrders := 5,
    totalScore := 0, ordersCompleted := 0, perfectOrders := 0 }

/-- `OrderSystem.spawnOrder`, with the randomly chosen dish and time limit
resolved into the ready-made `Order` argument: fails at max capacity, else
registers the order. -/
def spawnOrder (sys : OrderSystem) (o : Order) : OrderSystem × Bool :=
  if sys.maxActiveOrders ≤ sys.activeOrders.length then (sys, false)
  else ({ sys with activeOrders := setA sys.activeOrders o.id o }, true)

/-- `OrderSystem.getActiveOrder`: the first order (in insertion order)
whose `isActive` flag is set. -/
def getActiveOrder (sys : OrderSystem) : Option (String × Order) :=
  sys.activeOrders.find? (fun p => p.2.isActive)

/-- `OrderSystem.selectOrder`: fails if the id is not a live order;
otherwise clears `isActive` on the previously active order (if any) and
sets it on the target. -/
def selectOrder (sys : OrderSystem) (orderId : String) : OrderSystem × Bool :=
  match List.lookup orderId sys.activeOrders with
  | none => (sys, false)
  | some _ =>
    let l1 :=
      match sys.activeOrders.find? (fun p => p.2.isActive) with
      | none => sys.activeOrders
      | some p => updA sys.activeOrders p.1 (fun o => { o with isActive := false })
    ({ sys with activeOrders := updA l1 orderId (fun o => { o with isActive := true }) }, true)

/-- The rating/score computation inside `OrderSystem.completeOrder`
(lines 222–242): defaults `bad`/0; when the dish is valid, classify by
`timeRatio = remainingTime / (timeLimit / 1000)`. -/
def completeRating (o : Order) (dishValid : Bool) (now : Nat) : String × Int :=
  if dishValid then
    let remainingTime := o.getRemainingTime now
    let totalTime : ℚ := (o.timeLimit : ℚ) / 1000
    let timeRatio : ℚ := (remainingTime : ℚ) / totalTime
    if 3 / 4 < timeRatio then ("perfect", 100)
    else if 1 / 4 < timeRatio then ("good", 60)
    else if 0 < remainingTime then ("average", 30)
    else ("bad", 0)
  else ("bad", 0)

/-- `OrderSystem.completeOrder`: fails (`null`, no state change) when the
id is not in `activeOrders`; otherwise rates the order, accumulates the
score and counters, moves the order to `completedOrders` and removes it
from `activeOrders`. -/
def completeOrder (sys : OrderSystem) (orderId : String) (dishValid : Bool)
    (now : Nat) : OrderSystem × Option Order :=
  match List.lookup orderId sys.activeOrders with
  | none => (sys, none)
  | some o =>
    let rs := completeRating o dishValid now
    let o2 := o.complete rs.1
    ({ sys with
        activeOrders := delA sys.activeOrders orderId,
        completedOrders := sys.completedOrders ++ [o2],
        totalScore := sys.totalScore + rs.2,
        ordersCompleted := sys.ordersCompleted + 1,
        perfectOrders := sys.perfectOrders + (if rs.1 == "perfect" then 1 else 0) },
      some o2)

/-- `OrderSystem.expireOrder`: fails (`null`) when the id is not in
`activeOrders`; otherwise marks the order `failed`, moves it to
`completedOrders` and removes it from `activeOrders`.  The −20 shown by
`showOrderFeedback` is display-only: no score or counter field changes. -/
def expireOrder (sys : OrderSystem) (orderId : String) : OrderSystem × Option Order :=
  match List.lookup orderId sys.activeOrders with
  | none => (sys, none)
  | some o =>
    let o2 := o.complete "failed"
    ({ sys with
        activeOrders := delA sys.activeOrders orderId,
        completedOrders := sys.completedOrders ++ [o2] },
      some o2)

/-- JavaScript `Math.round` on a rational value. -/
def jsRound (q : ℚ) : Int := ⌊q + 1 / 2⌋

/-- The record returned by `OrderSystem.getStats`. -/
structure Stats where
  totalScore : Int
  ordersCompleted : Nat
  perfectOrders : Nat
  activeOrders : Nat
  averageScore : Int
  perfectRate : Int
deriving DecidableEq

/-- `OrderSystem.getStats`. -/
def getStats (sys : OrderSystem) : Stats :=
  { totalScore := sys.totalScore,
    ordersCompleted := sys.ordersCompleted,
    perfectOrders := sys.perfectOrders,
    activeOrders := sys.activeOrders.length,
    averageScore := if 0 < sys.ordersCompleted then
        jsRound ((sys.totalScore : ℚ) / (sys.ordersCompleted : ℚ)) else 0,
    perfectRate := if 0 < sys.ordersCompleted then
        jsRound ((sys.perfectOrders : ℚ) / (sys.ordersCompleted : ℚ) * 100) else 0 }

/-- The order-status part of `cancelCurrentDish` (`game.js` line 449):
clear `isActive` on the currently active order, if any. -/
def cancelActive (sys : OrderSystem) : OrderSystem :=
  match getActiveOrder sys with
  | none => sys
  | some p =>
    { sys with activeOrders := updA sys.activeOrders p.1 (fun o => { o with isActive := false }) }

/-- `OrderSystem.clearAllOrders`. -/
def clearAllOrders (sys : OrderSystem) : OrderSystem :=
  { sys with activeOrders := [], completedOrders := [],
             totalScore := 0, ordersCompleted := 0, perfectOrders := 0 }

/-! ## Game-level operations (`game.js`) -/

/-- The combined state mutated by the game controller (the cooking-station
manager's display state is view-layer and outside this record). -/
structure GameState where
  dishSystem : DishSystem
  orderSystem : OrderSystem
deriving DecidableEq

/-- `CookTapGame.serveDish`: fails without an active order, a known dish,
or a valid dish; otherwise completes the active order with
`dishValid = isDishValid` and resets the dish instance. -/
def serveDish (g : GameState) (now : Nat) : GameState × Bool :=
  match getActiveOrder g.orderSystem with
  | none => (g, false)
  | some p =>
    match getDish g.dishSystem p.2.dishId with
    | none => (g, false)
    | some dish =>
      if !(isDishValid dish) then (g, false)
      else
        let os := (completeOrder g.orderSystem p.1 (isDishValid dish) now).1
        let ds := (sysResetDish g.dishSystem p.2.dishId).1
        (⟨ds, os⟩, true)

/-- `CookTapGame.cancelCurrentDish`: with an active order, reset its dish
instance and clear the order's `isActive` flag. -/
def cancelCurrentDish (g : GameState) : GameState :=
  match getActiveOrder g.orderSystem with
  | none => g
  | some p => ⟨(sysResetDish g.dishSystem p.2.dishId).1, cancelActive g.orderSystem⟩

/-- The expiry path (`startOrderTimer` countdown reaching 0 calls
`OrderSystem.expireOrder`): only the order system changes; no dish reset
occurs anywhere on this path. -/
def gameExpireOrder (g : GameState) (orderId : String) : GameState :=
  ⟨g.dishSystem, (expireOrder g.orderSystem orderId).1⟩

/-! ## Cooking stations (`js/cooking-stations.js`) -/

/-- An item occupying a cooking slot, as built by `CookingStation.addItem`
(display name omitted). -/
structure CookItem where
  ingredient : String
  action : String
  startTime : Nat
  cookingTime : Nat
  isReady : Bool
deriving DecidableEq

/-- A `CookingStation` object (DOM element and highlight flag omitted). -/
structure Station where
  id : String
  allowedActions : List String
  cookingSlots : Nat
  currentItems : List (Nat × CookItem)
deriving DecidableEq

/-- The `CookingStation` constructor: `cookingSlots` defaults to 1
(`config.cookingSlots || 1`); no items yet. -/
def mkStation (id : String) (cfg : StationDef) : Station :=
  { id, allowedActions := cfg.allowedActions,
    cookingSlots := cfg.cookingSlots.getD 1, currentItems := [] }

/-- `CookingStation.getNextAvailableSlot`: the lowest slot index below
`cookingSlots` not currently occupied (`-1`, here `none`, when full). -/
def getNextAvailableSlot (st : Station) : Option Nat :=
  (List.range st.cookingSlots).find? (fun i => !(st.currentItems.any (fun p => p.1 == i)))

/-- `CookingStation.addItem`: rejects out-of-range slot indices, else
stores the item with `startTime = now`, `cookingTime = item.cookingTime || 3000`
and `isReady = false`. -/
def addItem (st : Station) (slotIndex : Nat) (ingredient action : String)
    (cookingTime now : Nat) : Station × Bool :=
  if st.cookingSlots ≤ slotIndex then (st, false)
  else
    let it : CookItem := ⟨ingredient, action, now,
      if cookingTime == 0 then 3000 else cookingTime, false⟩
    ({ st with currentItems := setA st.currentItems slotIndex it }, true)

/-- The station-state part of `CookingStationManager.handleCookingAction`
(lines 300–342): reject actions the station does not allow; on a
multi-slot station, find a free slot (fail when full) and add the item
(the `cookingTime` looked up from the dish's prep steps is a parameter);
on a single-slot station, report success without scheduling a job. -/
def handleCookingAction (st : Station) (action ingredient : String)
    (cookingTime now : Nat) : Station × Bool :=
  if !(st.allowedActions.contains action) then (st, false)
  else if 1 < st.cookingSlots then
    match getNextAvailableSlot st with
    | none => (st, false)
    | some slotIndex => addItem st slotIndex ingredient action cookingTime now
  else (st, true)

/-- `CookingStation.removeItem`: delete the slot and return what it held. -/
def removeItem (st : Station) (slotIndex : Nat) : Station × Option CookItem :=
  ({ st with currentItems := delA st.currentItems slotIndex },
    List.lookup slotIndex st.currentItems)

/-- `CookingStationManager.removeCookedItem`: fails (`null`) unless the
slot holds a ready item; otherwise removes it. -/
def removeCookedItem (st : Station) (slotIndex : Nat) : Station × Option CookItem :=
  match List.lookup slotIndex st.currentItems with
  | none => (st, none)
  | some it => if !it.isReady then (st, none) else removeItem st slotIndex

/-- The `setTimeout` callback installed by `addItem`: when the slot still
holds an item, set its `isReady` flag. -/
def markSlotReady (st : Station) (slotIndex : Nat) : Station :=
  { st with currentItems := updA st.currentItems slotIndex (fun it => { it with isReady := true }) }

/-! ## Specification-side predicates -/

/-- An ingredient of the recipe on which `useToolOnDish` can advance a
prep step with tool `toolId`: added, state present and not ready, and the
next pending prep step's action equals the tool. -/
def prepEligible (dish : Dish) (toolId : String) (ing : IngredientSpec) : Prop :=
  dish.currentIngredients.contains ing.id = true ∧
  ∃ s, List.lookup ing.id dish.ingredientStates = some s ∧ s.isReady = false ∧
    ∃ step, ing.prepSteps.get? s.prepStepsCompleted = some step ∧ step.action = toolId

/-- The current final step exists and its action equals the tool. -/
def finalEligible (dish : Dish) (toolId : String) : Prop :=
  ∃ step, dish.finalSteps.get? dish.finalStepsProgress = some step ∧ step.action = toolId

/-- The spec's per-ingredient readiness invariant: for every recipe
ingredient with a progress record, `isReady` is true iff
`prepStepsCompleted` equals the number of prep steps the recipe defines
for it. -/
def DishReadyInv (dish : Dish) : Prop :=
  ∀ ing ∈ dish.ingredients, ∀ s, List.lookup ing.id dish.ingredientStates = some s →
    (s.isReady = true ↔ s.prepStepsCompleted = ing.prepSteps.length)

/-- Executable check of `DishReadyInv`. -/
def readyInvB (dish : Dish) : Bool :=
  dish.ingredients.all (fun ing =>
    match List.lookup ing.id dish.ingredientStates with
    | none => true
    | some s => s.isReady == decide (s.prepStepsCompleted = ing.prepSteps.length))

/-- The static recipe fields of a stored dish object (everything except
the mutable per-dish instance state). -/
def recipeData (d : Dish) :
    String × String × String × List IngredientSpec × List FinalStep × Nat × Nat :=
  (d.id, d.name, d.station, d.ingredients, d.finalSteps, d.difficulty, d.prepTime)

/-- The number of orders flagged active. -/
def countActive (sys : OrderSystem) : Nat :=
  List.countP (fun p => p.2.isActive) sys.activeOrders

/-- Order-system invariant: map keys are unique and at most one live
order is flagged active. -/
def OrdInv (sys : OrderSystem) : Prop :=
  (sys.activeOrders.map Prod.fst).Nodup ∧ countActive sys ≤ 1

/-- One mutation of the order system, as performed by its public
operations (each driven by a single player command or timer event). -/
inductive OrderStep : OrderSystem → OrderSystem → Prop
  | spawn (sys : OrderSystem) (id dishId dishName : String) (tl ca : Nat) :
      OrderStep sys (spawnOrder sys (mkOrder id dishId dishName tl ca)).1
  | select (sys : OrderSystem) (orderId : String) :
      OrderStep sys (selectOrder sys orderId).1
  | complete (sys : OrderSystem) (orderId : String) (dishValid : Bool) (now : Nat) :
      OrderStep sys (completeOrder sys orderId dishValid now).1
  | expire (sys : OrderSystem) (orderId : String) :
      OrderStep sys (expireOrder sys orderId).1
  | cancel (sys : OrderSystem) : OrderStep sys (cancelActive sys)
  | clear (sys : OrderSystem) : OrderStep sys (clearAllOrders sys)

/-- Order-system states reachable from the freshly constructed system. -/
def OrderReachable (sys : OrderSystem) : Prop :=
  Relation.ReflTransGen OrderStep initOrderSystem sys

/-- Station invariant: slot indices of live jobs are unique and in range. -/
def SlotInv (st : Station) : Prop :=
  (st.currentItems.map Prod.fst).Nodup ∧ ∀ p ∈ st.currentItems, p.1 < st.cookingSlots

/-- One mutation of a cooking station's state: a cooking submission, a
collection of a ready item, or the cooking timer firing. -/
inductive StationStep : Station → Station → Prop
  | cook (st : Station) (action ingredient : String) (cookingTime now : Nat) :
      StationStep st (handleCookingAction st action ingredient cookingTime now).1
  | collect (st : Station) (slotIndex : Nat) :
      StationStep st (removeCookedItem st slotIndex).1
  | timerFired (st : Station) (slotIndex : Nat) :
      StationStep st (markSlotReady st slotIndex)

/-- Station states reachable from a freshly constructed station. -/
def StationReachable (id : String) (cfg : StationDef) (st : Station) : Prop :=
  Relation.ReflTransGen StationStep (mkStation id cfg) st

/-! ## Association-list lemmas -/

section AssocLemmas

set_option linter.unusedSectionVars false

variable {κ β : Type} [BEq κ] [LawfulBEq κ]

theorem beq_false_of_ne {a b : κ} (h : ¬ a = b) : (a == b) = false :=
  beq_eq_false_iff_ne.mpr h

theorem bool_not_eq_true {b : Bool} (h : ¬ b = true) : b = false := by
  cases b
  · rfl
  · exact absurd rfl h

theorem lookup_cons (a : κ) (p : κ × β) (m : List (κ × β)) :
    List.lookup a (p :: m) = if a == p.1 then some p.2 else List.lookup a m := by
  rcases p with ⟨x, y⟩
  by_cases h : (a == x) = true <;> simp [List.lookup, h]

theorem lookup_append_right (a : κ) (m₁ m₂ : List (κ × β))
    (h : List.lookup a m₁ = none) :
    List.lookup a (m₁ ++ m₂) = List.lookup a m₂ := by
  induction m₁ with
  | nil => rw [List.nil_append]
  | cons p m ih =>
    rcases p with ⟨x, y⟩
    rw [lookup_cons] at h
    rw [List.cons_append, lookup_cons]
    by_cases hq : a = x
    · simp [hq] at h
    · have hb : (a == x) = false := beq_false_of_ne hq
      simp only [hb] at h ⊢
      simp only [Bool.false_eq_true, if_false] at h ⊢
      exact ih h

theorem any_key_eq_false_lookup (m : List (κ × β)) (k : κ)
    (h : m.any (fun p => p.1 == k) = false) : List.lookup k m = none := by
  induction m with
  | nil => rfl
  | cons p m ih =>
    rcases p with ⟨x, y⟩
    simp only [List.any_cons, Bool.or_eq_false_iff] at h
    have hx : ¬ x = k := by
      intro hh
      rw [hh] at h
      simp at h
    rw [lookup_cons]
    simp [beq_false_of_ne (fun hh => hx hh.symm), ih h.2]

theorem mapReplace_of_not_any (m : List (κ × β)) (k : κ) (v : β)
    (h : m.any (fun p => p.1 == k) = false) :
    m.map (fun p => if p.1 == k then (k, v) else p) = m := by
  induction m with
  | nil => rfl
  | cons p m ih =>
    simp only [List.any_cons, Bool.or_eq_false_iff] at h
    simp [h.1, ih h.2]

theorem lookup_mapReplace_self (m : List (κ × β)) (k : κ) (v : β)
    (h : m.any (fun p => p.1 == k) = true) :
    List.lookup k (m.map (fun p => if p.1 == k then (k, v) else p)) = some v := by
  induction m with
  | nil => simp at h
  | cons p m ih =>
    rcases p with ⟨x, y⟩
    by_cases hp : x = k
    · subst hp
      simp [lookup_cons]
    · simp only [List.any_cons, Bool.or_eq_true, beq_iff_eq] at h
      rcases h with hc | hc
      · exact absurd hc hp
      · simp only [List.map_cons, beq_false_of_ne hp]
        simp only [Bool.false_eq_true, if_false]
        rw [lookup_cons]
        simp [beq_false_of_ne (fun hh => hp hh.symm), ih hc]

theorem lookup_mapReplace_ne (m : List (κ × β)) (k k2 : κ) (v : β)
    (h : k2 ≠ k) :
    List.lookup k2 (m.map (fun p => if p.1 == k then (k, v) else p)) =
      List.lookup k2 m := by
  induction m with
  | nil => rfl
  | cons p m ih =>
    rcases p with ⟨x, y⟩
    by_cases hp : x = k
    · subst hp
      simp only [List.map_cons]
      rw [lookup_cons, lookup_cons]
      simp [beq_false_of_ne h, ih]
    · simp only [List.map_cons, beq_false_of_ne hp]
      simp only [Bool.false_eq_true, if_false]
      rw [lookup_cons, lookup_cons]
      by_cases hq : k2 = x
      · simp [hq]
      · simp [beq_false_of_ne hq, ih]

theorem lookup_setA_self (m : List (κ × β)) (k : κ) (v : β) :
    List.lookup k (setA m k v) = some v := by
  unfold setA
  by_cases hany : (m.any fun p => p.1 == k) = true
  · rw [if_pos hany]
    exact lookup_mapReplace_self m k v hany
  · rw [if_neg hany]
    have hany2 : (m.any fun p => p.1 == k) = false := by
      rw [← Bool.not_eq_true]
      exact hany
    rw [lookup_append_right k m _ (any_key_eq_false_lookup m k hany2)]
    simp [lookup_cons]

theorem lookup_append_single_ne (m : List (κ × β)) (k k2 : κ) (v : β)
    (h : k2 ≠ k) : List.lookup k2 (m ++ [(k, v)]) = List.lookup k2 m := by
  induction m with
  | nil =>
    rw [List.nil_append, lookup_cons]
    simp [List.lookup, beq_false_of_ne h]
  | cons p m ih =>
    rw [List.cons_append, lookup_cons, lookup_cons]
    by_cases hq : k2 = p.1
    · simp [hq]
    · simp [beq_false_of_ne hq, ih]

theorem lookup_setA_ne (m : List (κ × β)) (k k2 : κ) (v : β) (h : k2 ≠ k) :
    List.lookup k2 (setA m k v) = List.lookup k2 m := by
  unfold setA
  by_cases hany : (m.any fun p => p.1 == k) = true
  · rw [if_pos hany]
    exact lookup_mapReplace_ne m k k2 v h
  · rw [if_neg hany]
    exact lookup_append_single_ne m k k2 v h

theorem lookup_updA_ne (m : List (κ × β)) (k k2 : κ) (f : β → β) (h : k2 ≠ k) :
    List.lookup k2 (updA m k f) = List.lookup k2 m := by
  induction m with
  | nil => rfl
  | cons p m ih =>
    rcases p with ⟨x, y⟩
    unfold updA at *
    by_cases hp : x = k
    · subst hp
      simp only [List.map_cons]
      rw [lookup_cons, lookup_cons]
      simp [beq_false_of_ne h, ih]
    · simp only [List.map_cons, beq_false_of_ne hp]
      simp only [Bool.false_eq_true, if_false]
      rw [lookup_cons, lookup_cons]
      by_cases hq : k2 = x
      · simp [hq]
      · simp [beq_false_of_ne hq, ih]

theorem lookup_updA_self (m : List (κ × β)) (k : κ) (f : β → β) :
    List.lookup k (updA m k f) = (List.lookup k m).map f := by
  induction m with
  | nil => rfl
  | cons p m ih =>
    rcases p with ⟨x, y⟩
    unfold updA at *
    by_cases hp : x = k
    · subst hp
      simp only [List.map_cons]
      rw [lookup_cons, lookup_cons]
      simp
    · simp only [List.map_cons, beq_false_of_ne hp]
      simp only [Bool.false_eq_true, if_false]
      rw [lookup_cons, lookup_cons]
      simp [beq_false_of_ne (fun hh => hp hh.symm), ih]

theorem lookup_delA_self (m : List (κ × β)) (k : κ) :
    List.lookup k (delA m k) = none := by
  induction m with
  | nil => rfl
  | cons p m ih =>
    rcases p with ⟨x, y⟩
    unfold delA at *
    by_cases hp : x = k
    · subst hp
      simp only [List.filter_cons]
      simp [ih]
    · simp only [List.filter_cons, beq_false_of_ne hp]
      simp only [Bool.not_false, if_pos]
      rw [lookup_cons]
      simp [beq_false_of_ne (fun hh => hp hh.symm), ih]

theorem lookup_delA_ne (m : List (κ × β)) (k k2 : κ) (h : k2 ≠ k) :
    List.lookup k2 (delA m k) = List.lookup k2 m := by
  induction m with
  | nil => rfl
  | cons p m ih =>
    rcases p with ⟨x, y⟩
    unfold delA at *
    by_cases hp : x = k
    · subst hp
      simp only [List.filter_cons]
      rw [lookup_cons]
      simp [beq_false_of_ne h, ih]
    · simp only [List.filter_cons, beq_false_of_ne hp]
      simp only [Bool.not_false, if_pos]
      rw [lookup_cons, lookup_cons]
      by_cases hq : k2 = x
      · simp [hq]
      · simp [beq_false_of_ne hq, ih]

theorem keys_updA (m : List (κ × β)) (k : κ) (f : β → β) :
    (updA m k f).map Prod.fst = m.map Prod.fst := by
  induction m with
  | nil => rfl
  | cons p m ih =>
    rcases p with ⟨x, y⟩
    unfold updA at *
    by_cases hp : x = k <;> simp [hp, ih]

theorem keys_mapReplace (m : List (κ × β)) (k : κ) (v : β) :
    (m.map (fun p => if p.1 == k then (k, v) else p)).map Prod.fst =
      m.map Prod.fst := by
  induction m with
  | nil => rfl
  | cons p m ih =>
    rcases p with ⟨x, y⟩
    by_cases hp : x = k
    · subst hp
      simp [ih]
    · simp [beq_false_of_ne hp, ih]

theorem keys_setA_of_any (m : List (κ × β)) (k : κ) (v : β)
    (h : m.any (fun p => p.1 == k) = true) :
    (setA m k v).map Prod.fst = m.map Prod.fst := by
  unfold setA
  rw [if_pos h]
  exact keys_mapReplace m k v

theorem keys_setA_of_not_any (m : List (κ × β)) (k : κ) (v : β)
    (h : m.any (fun p => p.1 == k) = false) :
    (setA m k v).map Prod.fst = m.map Prod.fst ++ [k] := by
  unfold setA
  rw [if_neg (by simp [h])]
  simp

theorem nodup_keys_setA (m : List (κ × β)) (k : κ) (v : β)
    (h : (m.map Prod.fst).Nodup) : ((setA m k v).map Prod.fst).Nodup := by
  by_cases hany : (m.any fun p => p.1 == k) = true
  · rw [keys_setA_of_any m k v hany]
    exact h
  · have hany2 : (m.any fun p => p.1 == k) = false := by
      rw [← Bool.not_eq_true]
      exact hany
    rw [keys_setA_of_not_any m k v hany2]
    rw [List.nodup_append]
    refine ⟨h, List.nodup_singleton k, ?_⟩
    intro a ha hb
    simp only [List.mem_singleton] at hb
    subst hb
    rw [List.mem_map] at ha
    obtain ⟨p, hp, hpk⟩ := ha
    exact hany (List.any_eq_true.mpr ⟨p, hp, by simp [hpk]⟩)

theorem nodup_keys_delA (m : List (κ × β)) (k : κ)
    (h : (m.map Prod.fst).Nodup) : ((delA m k).map Prod.fst).Nodup :=
  List.Nodup.sublist (List.Sublist.map Prod.fst (List.filter_sublist m)) h

theorem mem_delA (m : List (κ × β)) (k : κ) (p : κ × β) (h : p ∈ delA m k) :
    p ∈ m :=
  List.mem_of_mem_filter h

theorem length_delA_of_lookup (m : List (κ × β)) (k : κ) (v : β)
    (hnd : (m.map Prod.fst).Nodup) (h : List.lookup k m = some v) :
    (delA m k).length + 1 = m.length := by
  induction m with
  | nil => simp [List.lookup] at h
  | cons p m ih =>
    rcases p with ⟨x, y⟩
    rw [lookup_cons] at h
    simp only [List.map_cons, List.nodup_cons] at hnd
    unfold delA at *
    by_cases hp : k = x
    · subst hp
      simp only [List.filter_cons]
      have hfix : List.filter (fun q => !(q.1 == k)) m = m := by
        apply List.filter_eq_self.mpr
        intro q hq
        have hqk : ¬ q.1 = k := by
          intro hh
          exact hnd.1 (by rw [← hh]; exact List.mem_map_of_mem Prod.fst hq)
        simp [beq_false_of_ne hqk]
      simp [hfix]
    · simp only [beq_false_of_ne hp, Bool.false_eq_true, if_false] at h
      simp only [List.filter_cons, beq_false_of_ne (fun hh => hp hh.symm : ¬ x = k)]
      simp only [Bool.not_false, if_pos, List.length_cons]
      rw [ih hnd.2 h]

theorem fst_mem_setA (m : List (κ × β)) (k : κ) (v : β) (p : κ × β)
    (h : p ∈ setA m k v) : p.1 = k ∨ p ∈ m := by
  unfold setA at h
  by_cases hany : (m.any fun p => p.1 == k) = true
  · rw [if_pos hany] at h
    rw [List.mem_map] at h
    obtain ⟨q, hq, hg⟩ := h
    by_cases hb : (q.1 == k) = true
    · rw [if_pos hb] at hg
      left
      rw [← hg]
    · rw [if_neg hb] at hg
      right
      rw [← hg]
      exact hq
  · rw [if_neg hany] at h
    rw [List.mem_append] at h
    rcases h with h | h
    · right
      exact h
    · left
      rw [List.mem_singleton] at h
      rw [h]

theorem fst_mem_updA (m : List (κ × β)) (k : κ) (f : β → β) (p : κ × β)
    (h : p ∈ updA m k f) : ∃ q ∈ m, p.1 = q.1 := by
  unfold updA at h
  rw [List.mem_map] at h
  obtain ⟨q, hq, hg⟩ := h
  refine ⟨q, hq, ?_⟩
  by_cases hb : (q.1 == k) = true
  · rw [if_pos hb] at hg
    rw [← hg]
  · rw [if_neg hb] at hg
    rw [← hg]

theorem updA_cons (q : κ × β) (m : List (κ × β)) (k : κ) (f : β → β) :
    updA (q :: m) k f = (if q.1 == k then (q.1, f q.2) else q) :: updA m k f := rfl

theorem updA_of_not_mem (m : List (κ × β)) (k : κ) (f : β → β)
    (h : k ∉ m.map Prod.fst) : updA m k f = m := by
  induction m with
  | nil => rfl
  | cons p m ih =>
    rcases p with ⟨x, y⟩
    simp only [List.map_cons, List.mem_cons, not_or] at h
    unfold updA at *
    simp only [List.map_cons, beq_false_of_ne (fun hh => h.1 hh.symm : ¬ x = k)]
    simp only [Bool.false_eq_true, if_false]
    rw [ih h.2]

end AssocLemmas

/-! ## Lemmas about `useToolOnDish` -/

theorem not_prepEligible_not_contains (dish : Dish) (toolId : String)
    (ing : IngredientSpec) (hc : ¬ dish.currentIngredients.contains ing.id = true) :
    ¬ prepEligible dish toolId ing :=
  fun h => hc h.1

theorem not_prepEligible_no_state (dish : Dish) (toolId : String)
    (ing : IngredientSpec) (hs : List.lookup ing.id dish.ingredientStates = none) :
    ¬ prepEligible dish toolId ing := by
  rintro ⟨-, s, hs2, -⟩
  rw [hs] at hs2
  exact Option.noConfusion hs2

theorem not_prepEligible_ready (dish : Dish) (toolId : String)
    (ing : IngredientSpec) (s : IngState)
    (hs : List.lookup ing.id dish.ingredientStates = some s)
    (hr : s.isReady = true) : ¬ prepEligible dish toolId ing := by
  rintro ⟨-, s2, hs2, hr2, -⟩
  rw [hs] at hs2
  cases hs2
  rw [hr] at hr2
  exact Bool.noConfusion hr2

theorem not_prepEligible_no_step (dish : Dish) (toolId : String)
    (ing : IngredientSpec) (s : IngState)
    (hs : List.lookup ing.id dish.ingredientStates = some s)
    (hstep : ing.prepSteps.get? s.prepStepsCompleted = none) :
    ¬ prepEligible dish toolId ing := by
  rintro ⟨-, s2, hs2, -, step, hstep2, -⟩
  rw [hs] at hs2
  cases hs2
  rw [hstep] at hstep2
  exact Option.noConfusion hstep2

theorem not_prepEligible_wrong_action (dish : Dish) (toolId : String)
    (ing : IngredientSpec) (s : IngState) (step : PrepStep)
    (hs : List.lookup ing.id dish.ingredientStates = some s)
    (hstep : ing.prepSteps.get? s.prepStepsCompleted = some step)
    (ha : ¬ step.action = toolId) : ¬ prepEligible dish toolId ing := by
  rintro ⟨-, s2, hs2, -, step2, hstep2, ha2⟩
  rw [hs] at hs2
  cases hs2
  rw [hstep] at hstep2
  cases hstep2
  exact ha ha2

theorem useToolPrepLoop_none_iff (dish : Dish) (toolId : String)
    (l : List IngredientSpec) :
    useToolPrepLoop dish toolId l = none ↔
      ∀ ing ∈ l, ¬ prepEligible dish toolId ing := by
  induction l with
  | nil => simp [useToolPrepLoop]
  | cons ing rest ih =>
    rw [useToolPrepLoop, List.forall_mem_cons]
    by_cases hc : dish.currentIngredients.contains ing.id = true
    · rw [if_pos hc]
      cases hs : List.lookup ing.id dish.ingredientStates with
      | none => simp [ih, not_prepEligible_no_state dish toolId ing hs]
      | some s =>
        dsimp only
        by_cases hr : s.isReady = true
        · simp [hr, ih, not_prepEligible_ready dish toolId ing s hs hr]
        · rw [if_neg hr]
          cases hstep : ing.prepSteps.get? s.prepStepsCompleted with
          | none => simp [ih, not_prepEligible_no_step dish toolId ing s hs hstep]
          | some step =>
            dsimp only
            by_cases ha : step.action = toolId
            · have hb : (step.action == toolId) = true := by simp [ha]
              rw [if_pos hb]
              constructor
              · intro h
                exact Option.noConfusion h
              · intro h
                exact absurd ⟨hc, s, hs, Bool.not_eq_true s.isReady ▸ hr, step, hstep, ha⟩ h.1
            · rw [if_neg (by simp [ha])]
              simp [ih,
                not_prepEligible_wrong_action dish toolId ing s step hs hstep ha]
    · rw [if_neg hc]
      simp [ih, not_prepEligible_not_contains dish toolId ing hc]

theorem useToolPrepLoop_eq_some (dish : Dish) (toolId : String)
    (l : List IngredientSpec) (d : Dish)
    (h : useToolPrepLoop dish toolId l = some d) :
    ∃ ing ∈ l, ∃ s, List.lookup ing.id dish.ingredientStates = some s ∧
      prepEligible dish toolId ing ∧ d = advancePrep dish ing s := by
  induction l with
  | nil => exact Option.noConfusion h
  | cons ing rest ih =>
    rw [useToolPrepLoop] at h
    by_cases hc : dish.currentIngredients.contains ing.id = true
    · rw [if_pos hc] at h
      cases hs : List.lookup ing.id dish.ingredientStates with
      | none =>
        rw [hs] at h
        obtain ⟨ing2, hmem, hrest⟩ := ih h
        exact ⟨ing2, List.mem_cons_of_mem ing hmem, hrest⟩
      | some s =>
        rw [hs] at h
        dsimp only at h
        by_cases hr : s.isReady = true
        · rw [if_pos hr] at h
          obtain ⟨ing2, hmem, hrest⟩ := ih h
          exact ⟨ing2, List.mem_cons_of_mem ing hmem, hrest⟩
        · rw [if_neg hr] at h
          cases hstep : ing.prepSteps.get? s.prepStepsCompleted with
          | none =>
            rw [hstep] at h
            obtain ⟨ing2, hmem, hrest⟩ := ih h
            exact ⟨ing2, List.mem_cons_of_mem ing hmem, hrest⟩
          | some step =>
            rw [hstep] at h
            dsimp only at h
            by_cases ha : step.action = toolId
            · rw [if_pos (by simp [ha])] at h
              cases h
              exact ⟨ing, List.mem_cons_self ing rest,
                s, hs, ⟨hc, s, hs, Bool.not_eq_true s.isReady ▸ hr, step, hstep, ha⟩, rfl⟩
            · rw [if_neg (by simp [ha])] at h
              obtain ⟨ing2, hmem, hrest⟩ := ih h
              exact ⟨ing2, List.mem_cons_of_mem ing hmem, hrest⟩
    · rw [if_neg hc] at h
      obtain ⟨ing2, hmem, hrest⟩ := ih h
      exact ⟨ing2, List.mem_cons_of_mem ing hmem, hrest⟩

theorem useToolPrepLoop_first (dish : Dish) (toolId : String) :
    ∀ (l : List IngredientSpec) (i : Nat) (ing : IngredientSpec) (s : IngState),
      l.get? i = some ing →
      (∀ j ingj, j < i → l.get? j = some ingj → ¬ prepEligible dish toolId ingj) →
      prepEligible dish toolId ing →
      List.lookup ing.id dish.ingredientStates = some s →
      useToolPrepLoop dish toolId l = some (advancePrep dish ing s)
  | [], i, ing, s, hget, _, _, _ => by simp at hget
  | a :: rest, 0, ing, s, hget, _, helig, hs => by
    simp only [List.get?] at hget
    cases hget
    obtain ⟨hc, s2, hs2, hr2, step, hstep2, ha2⟩ := helig
    rw [hs] at hs2
    cases hs2
    rw [useToolPrepLoop, if_pos hc, hs]
    dsimp only
    rw [if_neg (by simp [hr2])]
    rw [hstep2]
    dsimp only
    rw [if_pos (by simp [ha2])]
  | a :: rest, (i + 1), ing, s, hget, hbefore, helig, hs => by
    simp only [List.get?] at hget
    have hna : ¬ prepEligible dish toolId a :=
      hbefore 0 a (Nat.succ_pos i) rfl
    have htail : useToolPrepLoop dish toolId rest = some (advancePrep dish ing s) :=
      useToolPrepLoop_first dish toolId rest i ing s hget
        (fun j ingj hj hgj => hbefore (j + 1) ingj (Nat.succ_lt_succ hj) hgj)
        helig hs
    rw [useToolPrepLoop]
    by_cases hc : dish.currentIngredients.contains a.id = true
    · rw [if_pos hc]
      cases hsa : List.lookup a.id dish.ingredientStates with
      | none => exact htail
      | some sa =>
        dsimp only
        by_cases hr : sa.isReady = true
        · rw [if_pos hr]
          exact htail
        · rw [if_neg hr]
          cases hstep : a.prepSteps.get? sa.prepStepsCompleted with
          | none => exact htail
          | some step =>
            dsimp only
            by_cases ha : step.action = toolId
            · exact absurd ⟨hc, sa, hsa, Bool.not_eq_true sa.isReady ▸ hr,
                step, hstep, ha⟩ hna
            · rw [if_neg (by simp [ha])]
              exact htail
    · rw [if_neg hc]
      exact htail


/-! ## C2: applyTool advances exactly one target or nothing -/

theorem useToolOnDish_of_loop_some (dish : Dish) (toolId : String) (d : Dish)
    (h : useToolPrepLoop dish toolId dish.ingredients = some d) :
    useToolOnDish dish toolId = (d, true) := by
  rw [useToolOnDish, h]

/-- C2: for every dish instance and tool, a single `useToolOnDish` call
either advances exactly one target by exactly one unit or changes nothing:
the added, not-yet-ready ingredients are tried in recipe order and the
first whose next pending prep step matches the tool advances; only if no
ingredient advanced does the final-step counter advance, and only when the
tool matches the current final step; otherwise the state is unchanged and
`false` (NoEffect) is returned; no call skips or regresses a counter. -/
theorem claim_C2 (dish : Dish) (toolId : String) :
    ((useToolOnDish dish toolId).2 = false →
      (useToolOnDish dish toolId).1 = dish ∧
      (∀ ing ∈ dish.ingredients, ¬ prepEligible dish toolId ing) ∧
      ¬ finalEligible dish toolId) ∧
    (∀ i ing s, dish.ingredients.get? i = some ing →
      (∀ j ingj, j < i → dish.ingredients.get? j = some ingj →
        ¬ prepEligible dish toolId ingj) →
      prepEligible dish toolId ing →
      List.lookup ing.id dish.ingredientStates = some s →
      useToolOnDish dish toolId = (advancePrep dish ing s, true)) ∧
    ((∀ ing ∈ dish.ingredients, ¬ prepEligible dish toolId ing) →
      finalEligible dish toolId →
      useToolOnDish dish toolId = (advanceFinal dish, true)) ∧
    ((useToolOnDish dish toolId).2 = true →
      (∃ ing s, ing ∈ dish.ingredients ∧ prepEligible dish toolId ing ∧
        List.lookup ing.id dish.ingredientStates = some s ∧
        (useToolOnDish dish toolId).1 = advancePrep dish ing s ∧
        List.lookup ing.id (useToolOnDish dish toolId).1.ingredientStates =
          some { prepStepsCompleted := s.prepStepsCompleted + 1,
                 isReady := if ing.prepSteps.length ≤ s.prepStepsCompleted + 1
                            then true else s.isReady } ∧
        (∀ k, k ≠ ing.id →
          List.lookup k (useToolOnDish dish toolId).1.ingredientStates =
            List.lookup k dish.ingredientStates) ∧
        (useToolOnDish dish toolId).1.finalStepsProgress = dish.finalStepsProgress ∧
        (useToolOnDish dish toolId).1.currentIngredients = dish.currentIngredients) ∨
      ((∀ ing ∈ dish.ingredients, ¬ prepEligible dish toolId ing) ∧
        finalEligible dish toolId ∧
        (useToolOnDish dish toolId).1 = advanceFinal dish ∧
        (useToolOnDish dish toolId).1.ingredientStates = dish.ingredientStates ∧
        (useToolOnDish dish toolId).1.finalStepsProgress = dish.finalStepsProgress + 1)) := by
  refine ⟨?_, ?_, ?_, ?_⟩
  · -- NoEffect: nothing matched, state unchanged
    intro h
    cases hloop : useToolPrepLoop dish toolId dish.ingredients with
    | some d =>
      rw [useToolOnDish_of_loop_some dish toolId d hloop] at h
      exact absurd h (by simp)
    | none =>
      have hall := (useToolPrepLoop_none_iff dish toolId dish.ingredients).mp hloop
      cases hstep : dish.finalSteps.get? dish.finalStepsProgress with
      | none =>
        have hres : useToolOnDish dish toolId = (dish, false) := by
          rw [useToolOnDish, hloop, hstep]
        refine ⟨by rw [hres], hall, ?_⟩
        rintro ⟨step, hstep2, -⟩
        rw [hstep] at hstep2
        exact Option.noConfusion hstep2
      | some step =>
        by_cases ha : step.action = toolId
        · have hres : useToolOnDish dish toolId = (advanceFinal dish, true) := by
            rw [useToolOnDish, hloop, hstep]
            dsimp only
            rw [if_pos (by simp [ha])]
          rw [hres] at h
          exact absurd h (by simp)
        · have hres : useToolOnDish dish toolId = (dish, false) := by
            rw [useToolOnDish, hloop, hstep]
            dsimp only
            rw [if_neg (by simp [ha])]
          refine ⟨by rw [hres], hall, ?_⟩
          rintro ⟨step2, hstep2, ha2⟩
          rw [hstep] at hstep2
          cases hstep2
          exact ha ha2
  · -- first eligible ingredient advances
    intro i ing s hget hbef helig hs
    exact useToolOnDish_of_loop_some dish toolId (advancePrep dish ing s)
      (useToolPrepLoop_first dish toolId dish.ingredients i ing s hget hbef helig hs)
  · -- final-step advance when no ingredient is eligible
    intro hall hfin
    have hloop : useToolPrepLoop dish toolId dish.ingredients = none :=
      (useToolPrepLoop_none_iff dish toolId dish.ingredients).mpr hall
    obtain ⟨step, hstep, ha⟩ := hfin
    rw [useToolOnDish, hloop, hstep]
    dsimp only
    rw [if_pos (by simp [ha])]
  · -- successful call: exactly one counter advances by one
    intro h
    cases hloop : useToolPrepLoop dish toolId dish.ingredients with
    | some d =>
      left
      obtain ⟨ing, hmem, s, hs, helig, hd⟩ :=
        useToolPrepLoop_eq_some dish toolId dish.ingredients d hloop
      have hres := useToolOnDish_of_loop_some dish toolId d hloop
      refine ⟨ing, s, hmem, helig, hs, by rw [hres, hd], ?_, ?_, ?_, ?_⟩
      · rw [hres, hd]
        dsimp only [advancePrep]
        exact lookup_setA_self dish.ingredientStates ing.id _
      · intro k hk
        rw [hres, hd]
        dsimp only [advancePrep]
        exact lookup_setA_ne dish.ingredientStates ing.id k _ hk
      · rw [hres, hd]
        rfl
      · rw [hres, hd]
        rfl
    | none =>
      right
      have hall := (useToolPrepLoop_none_iff dish toolId dish.ingredients).mp hloop
      cases hstep : dish.finalSteps.get? dish.finalStepsProgress with
      | none =>
        have hres : useToolOnDish dish toolId = (dish, false) := by
          rw [useToolOnDish, hloop, hstep]
        rw [hres] at h
        exact absurd h (by simp)
      | some step =>
        by_cases ha : step.action = toolId
        · have hres : useToolOnDish dish toolId = (advanceFinal dish, true) := by
            rw [useToolOnDish, hloop, hstep]
            dsimp only
            rw [if_pos (by simp [ha])]
          refine ⟨hall, ⟨step, hstep, ha⟩, by rw [hres], ?_, ?_⟩
          · rw [hres]
            rfl
          · rw [hres]
            rfl
        · have hres : useToolOnDish dish toolId = (dish, false) := by
            rw [useToolOnDish, hloop, hstep]
            dsimp only
            rw [if_neg (by simp [ha])]
          rw [hres] at h
          exact absurd h (by simp)

/-- Concrete dish for exercising C2: a Caesar-salad instance with lettuce
added and unprepared. -/
def wDishC2 : Dish :=
  (addIngredientToDish
    ((getDish initialDishSystem "caesar_salad").getD (mkDish "" "" "" [] [] 0 0))
    "lettuce").1

/-- The lettuce ingredient spec of the Caesar salad recipe. -/
def wIngC2 : IngredientSpec := ⟨"lettuce", true, [⟨"chop", none, none⟩]⟩

theorem claim_C2_witness :
    useToolOnDish wDishC2 "chop" = (advancePrep wDishC2 wIngC2 ⟨0, false⟩, true) :=
  (claim_C2 wDishC2 "chop").2.1 0 wIngC2 ⟨0, false⟩ (by decide)
    (fun j ingj hj _ => absurd hj (Nat.not_lt_zero j))
    ⟨by decide, ⟨0, false⟩, by decide, rfl, ⟨"chop", none, none⟩, by decide, rfl⟩
    (by decide)

/-! ## C3: the per-ingredient readiness invariant -/

theorem dishReadyInv_iff (dish : Dish) :
    DishReadyInv dish ↔ readyInvB dish = true := by
  unfold DishReadyInv readyInvB
  rw [List.all_eq_true]
  constructor
  · intro h ing hmem
    cases hs : List.lookup ing.id dish.ingredientStates with
    | none => rfl
    | some s =>
      dsimp only
      have hiff := h ing hmem s hs
      by_cases hr : s.isReady = true <;>
        by_cases hc : s.prepStepsCompleted = ing.prepSteps.length <;>
        simp_all
  · intro h ing hmem s hs
    have := h ing hmem
    rw [hs] at this
    dsimp only at this
    by_cases hr : s.isReady = true <;>
      by_cases hc : s.prepStepsCompleted = ing.prepSteps.length <;>
      simp_all

theorem useToolOnDish_fst_of_loop_none (dish : Dish) (toolId : String)
    (h : useToolPrepLoop dish toolId dish.ingredients = none) :
    (useToolOnDish dish toolId).1 = dish ∨
      (useToolOnDish dish toolId).1 = advanceFinal dish := by
  rw [useToolOnDish, h]
  cases hstep : dish.finalSteps.get? dish.finalStepsProgress with
  | none => exact Or.inl rfl
  | some step =>
    dsimp only
    by_cases ha : (step.action == toolId) = true
    · rw [if_pos ha]
      exact Or.inr rfl
    · rw [if_neg ha]
      exact Or.inl rfl

/-- C3 (amended): the readiness invariant — `isReady` iff
`prepStepsCompleted` equals the recipe's prep-step count — is preserved by
`addIngredientToDish` and by `useToolOnDish`.  (It is not preserved by the
retrieval mutation; see the counterexample.) -/
theorem claim_C3 (dish : Dish) (ingredientId toolId : String)
    (hN : (dish.ingredients.map IngredientSpec.id).Nodup)
    (hInv : DishReadyInv dish) :
    DishReadyInv (addIngredientToDish dish ingredientId).1 ∧
    DishReadyInv (useToolOnDish dish toolId).1 := by
  constructor
  · unfold addIngredientToDish
    cases hfind : dish.ingredients.find? (fun ing => ing.id == ingredientId) with
    | none => exact hInv
    | some ing0 =>
      dsimp only
      by_cases hc : dish.currentIngredients.contains ingredientId = true
      · rw [if_pos hc]
        exact hInv
      · rw [if_neg hc]
        intro ing hmem s hs
        dsimp only at hs hmem ⊢
        by_cases hid : ing.id = ingredientId
        · rw [hid, lookup_setA_self] at hs
          cases hs
          have hmem0 : ing0 ∈ dish.ingredients := List.mem_of_find?_eq_some hfind
          have hid0 : ing0.id = ingredientId := by
            have := List.find?_some hfind
            simpa using this
          have heq : ing = ing0 :=
            List.inj_on_of_nodup_map hN hmem hmem0 (by rw [hid, hid0])
          subst heq
          dsimp only
          by_cases hz : ing.prepSteps.length = 0
          · simp [hz]
          · simp [hz]
            exact fun hh => hz hh.symm
        · rw [lookup_setA_ne _ _ _ _ hid] at hs
          exact hInv ing hmem s hs
  · cases hloop : useToolPrepLoop dish toolId dish.ingredients with
    | some d =>
      obtain ⟨ing, hmem, s, hs, helig, hd⟩ :=
        useToolPrepLoop_eq_some dish toolId dish.ingredients d hloop
      rw [useToolOnDish_of_loop_some dish toolId d hloop]
      dsimp only
      subst hd
      intro ing2 hmem2 s2 hs2
      dsimp only [advancePrep] at hs2 hmem2 ⊢
      by_cases hid : ing2.id = ing.id
      · rw [hid, lookup_setA_self] at hs2
        cases hs2
        have heq : ing2 = ing := List.inj_on_of_nodup_map hN hmem2 hmem hid
        subst heq
        obtain ⟨-, s3, hs3, hr3, step, hstep3, -⟩ := helig
        rw [hs] at hs3
        cases hs3
        have hlt : s.prepStepsCompleted < ing2.prepSteps.length :=
          (List.get?_eq_some.mp hstep3).1
        dsimp only
        by_cases hle : ing2.prepSteps.length ≤ s.prepStepsCompleted + 1
        · have : s.prepStepsCompleted + 1 = ing2.prepSteps.length :=
            Nat.le_antisymm hlt hle
          simp [hle, this]
        · have hne : ¬ s.prepStepsCompleted + 1 = ing2.prepSteps.length :=
            fun hh => hle (Nat.le_of_eq hh.symm)
          simp [hle, hr3, hne]
      · rw [lookup_setA_ne _ _ _ _ hid] at hs2
        exact hInv ing2 hmem2 s2 hs2
    | none =>
      rcases useToolOnDish_fst_of_loop_none dish toolId hloop with hr | hr <;>
        rw [hr]
      · exact hInv
      · exact hInv

/-- Concrete dish for C3: a Caesar-salad instance whose chicken breast has
completed its first prep step (grill, a station step) but not the second
(slice). -/
def wDishC3 : Dish :=
  (useToolOnDish
    ((addIngredientToDish
      ((getDish initialDishSystem "caesar_salad").getD (mkDish "" "" "" [] [] 0 0))
      "chicken_breast").1)
    "grill").1

theorem claim_C3_witness :
    DishReadyInv (addIngredientToDish wDishC3 "lettuce").1 ∧
    DishReadyInv (useToolOnDish wDishC3 "slice").1 :=
  claim_C3 wDishC3 "lettuce" "slice" (by decide)
    ((dishReadyInv_iff wDishC3).mpr (by decide))

/-- C3 counterexample: the retrieval mutation of `retrieveCookedItems`
sets `isReady` while `prepStepsCompleted = 1` of 2 prep steps, breaking
the invariant the claim says every ingredient-touching operation
preserves. -/
theorem claim_C3_counterexample :
    DishReadyInv wDishC3 ∧
    ¬ DishReadyInv (markIngredientRetrieved wDishC3 "chicken_breast") :=
  ⟨(dishReadyInv_iff wDishC3).mpr (by decide),
    fun h => absurd ((dishReadyInv_iff _).mp h) (by decide)⟩

/-! ## C4: what gameplay operations do and do not mutate -/

theorem recipeData_addIngredientToDish (dish : Dish) (ingredientId : String) :
    recipeData (addIngredientToDish dish ingredientId).1 = recipeData dish := by
  unfold addIngredientToDish
  cases dish.ingredients.find? (fun ing => ing.id == ingredientId) with
  | none => rfl
  | some ing0 =>
    dsimp only
    by_cases hc : dish.currentIngredients.contains ingredientId = true
    · rw [if_pos hc]
    · rw [if_neg hc]
      rfl

theorem recipeData_useToolOnDish (dish : Dish) (toolId : String) :
    recipeData (useToolOnDish dish toolId).1 = recipeData dish := by
  cases hloop : useToolPrepLoop dish toolId dish.ingredients with
  | some d =>
    obtain ⟨ing, hmem, s, hs, helig, hd⟩ :=
      useToolPrepLoop_eq_some dish toolId dish.ingredients d hloop
    rw [useToolOnDish_of_loop_some dish toolId d hloop]
    rw [hd]
    rfl
  | none =>
    rcases useToolOnDish_fst_of_loop_none dish toolId hloop with hr | hr <;> rw [hr]
    rfl

theorem recipeData_resetDish (dish : Dish) :
    recipeData (resetDish dish) = recipeData dish := rfl

theorem recipeData_markIngredientRetrieved (dish : Dish) (ingredientId : String) :
    recipeData (markIngredientRetrieved dish ingredientId) = recipeData dish := by
  unfold markIngredientRetrieved
  cases List.lookup ingredientId dish.ingredientStates with
  | none => rfl
  | some s => rfl

theorem getDish_setA_recipe (sys : DishSystem) (dishId : String) (dish d2 : Dish)
    (hdish : getDish sys dishId = some dish)
    (hrec : recipeData d2 = recipeData dish) (k : String) :
    (getDish { sys with dishes := setA sys.dishes dishId d2 } k).map recipeData =
      (getDish sys k).map recipeData := by
  unfold getDish at *
  by_cases hk : k = dishId
  · subst hk
    rw [lookup_setA_self, hdish]
    simp [hrec]
  · rw [lookup_setA_ne _ _ _ _ hk]

/-- C4 (amended): gameplay operations never touch the ingredient, tool or
station tables, and never change the static recipe fields of any stored
dish; but each stored dish also carries mutable per-dish instance state,
so `getDish`/`getAllDishes` do not return identical data after gameplay
(see the counterexample). -/
theorem claim_C4 (sys : DishSystem) (dishId ingredientId toolId : String) :
    ((sysAddIngredientToDish sys dishId ingredientId).1.ingredients = sys.ingredients ∧
      (sysAddIngredientToDish sys dishId ingredientId).1.tools = sys.tools ∧
      (sysAddIngredientToDish sys dishId ingredientId).1.cookingStations = sys.cookingStations ∧
      ∀ k, (getDish (sysAddIngredientToDish sys dishId ingredientId).1 k).map recipeData =
        (getDish sys k).map recipeData) ∧
    ((sysUseToolOnDish sys dishId toolId).1.ingredients = sys.ingredients ∧
      (sysUseToolOnDish sys dishId toolId).1.tools = sys.tools ∧
      (sysUseToolOnDish sys dishId toolId).1.cookingStations = sys.cookingStations ∧
      ∀ k, (getDish (sysUseToolOnDish sys dishId toolId).1 k).map recipeData =
        (getDish sys k).map recipeData) ∧
    ((sysResetDish sys dishId).1.ingredients = sys.ingredients ∧
      (sysResetDish sys dishId).1.tools = sys.tools ∧
      (sysResetDish sys dishId).1.cookingStations = sys.cookingStations ∧
      ∀ k, (getDish (sysResetDish sys dishId).1 k).map recipeData =
        (getDish sys k).map recipeData) ∧
    ((sysMarkIngredientRetrieved sys dishId ingredientId).ingredients = sys.ingredients ∧
      (sysMarkIngredientRetrieved sys dishId ingredientId).tools = sys.tools ∧
      (sysMarkIngredientRetrieved sys dishId ingredientId).cookingStations = sys.cookingStations ∧
      ∀ k, (getDish (sysMarkIngredientRetrieved sys dishId ingredientId) k).map recipeData =
        (getDish sys k).map recipeData) := by
  refine ⟨?_, ?_, ?_, ?_⟩
  · unfold sysAddIngredientToDish
    cases hdish : getDish sys dishId with
    | none => exact ⟨rfl, rfl, rfl, fun k => rfl⟩
    | some dish =>
      exact ⟨rfl, rfl, rfl, getDish_setA_recipe sys dishId dish _ hdish
        (recipeData_addIngredientToDish dish ingredientId)⟩
  · unfold sysUseToolOnDish
    cases hdish : getDish sys dishId with
    | none => exact ⟨rfl, rfl, rfl, fun k => rfl⟩
    | some dish =>
      exact ⟨rfl, rfl, rfl, getDish_setA_recipe sys dishId dish _ hdish
        (recipeData_useToolOnDish dish toolId)⟩
  · unfold sysResetDish
    cases hdish : getDish sys dishId with
    | none => exact ⟨rfl, rfl, rfl, fun k => rfl⟩
    | some dish =>
      exact ⟨rfl, rfl, rfl, getDish_setA_recipe sys dishId dish _ hdish
        (recipeData_resetDish dish)⟩
  · unfold sysMarkIngredientRetrieved
    cases hdish : getDish sys dishId with
    | none => exact ⟨rfl, rfl, rfl, fun k => rfl⟩
    | some dish =>
      exact ⟨rfl, rfl, rfl, getDish_setA_recipe sys dishId dish _ hdish
        (recipeData_markIngredientRetrieved dish ingredientId)⟩

/-- C4 counterexample: after one gameplay operation (adding cheese to the
burger), `getDish` no longer returns data identical to the data loaded at
startup — the stored dish object's mutable instance state changed. -/
theorem claim_C4_counterexample :
    getDish (sysAddIngredientToDish initialDishSystem "classic_burger" "cheese").1
        "classic_burger" ≠
      getDish initialDishSystem "classic_burger" := by decide

/-! ## C1: completion rating determined by the remaining-time ratio -/

/-- C1: completing a live order with a valid dish rates and scores it by
the remaining-time ratio `r = remainingSeconds / timeLimitSeconds`:
`r > 3/4 → perfect/100`; `1/4 < r ≤ 3/4 → good/60`;
`0 < r ≤ 1/4 → average/30`; `r ≤ 0 → bad/0`, with strict `>` at both
boundaries. -/
theorem claim_C1 (sys : OrderSystem) (orderId : String) (now : Nat) (o : Order)
    (h : List.lookup orderId sys.activeOrders = some o)
    (ht : 0 < o.timeLimit) :
    ∃ o2, (completeOrder sys orderId true now).2 = some o2 ∧
      (((3 : ℚ) / 4 < (o.getRemainingTime now : ℚ) / ((o.timeLimit : ℚ) / 1000) →
        o2.rating = some "perfect" ∧
        (completeOrder sys orderId true now).1.totalScore = sys.totalScore + 100) ∧
      ((1 : ℚ) / 4 < (o.getRemainingTime now : ℚ) / ((o.timeLimit : ℚ) / 1000) ∧
          (o.getRemainingTime now : ℚ) / ((o.timeLimit : ℚ) / 1000) ≤ (3 : ℚ) / 4 →
        o2.rating = some "good" ∧
        (completeOrder sys orderId true now).1.totalScore = sys.totalScore + 60) ∧
      ((0 : ℚ) < (o.getRemainingTime now : ℚ) / ((o.timeLimit : ℚ) / 1000) ∧
          (o.getRemainingTime now : ℚ) / ((o.timeLimit : ℚ) / 1000) ≤ (1 : ℚ) / 4 →
        o2.rating = some "average" ∧
        (completeOrder sys orderId true now).1.totalScore = sys.totalScore + 30) ∧
      ((o.getRemainingTime now : ℚ) / ((o.timeLimit : ℚ) / 1000) ≤ 0 →
        o2.rating = some "bad" ∧
        (completeOrder sys orderId true now).1.totalScore = sys.totalScore + 0)) := by
  have hT : (0 : ℚ) < (o.timeLimit : ℚ) / 1000 := by
    apply div_pos
    · exact_mod_cast ht
    · norm_num
  have hres2 : (completeOrder sys orderId true now).2 =
      some (o.complete (completeRating o true now).1) := by
    rw [completeOrder, h]
  have hres1 : (completeOrder sys orderId true now).1.totalScore =
      sys.totalScore + (completeRating o true now).2 := by
    rw [completeOrder, h]
  refine ⟨o.complete (completeRating o true now).1, hres2, ?_, ?_, ?_, ?_⟩
  · intro hr
    have hcr : completeRating o true now = ("perfect", 100) := by
      rw [completeRating, if_pos rfl]
      dsimp only
      rw [if_pos hr]
    rw [hres1, hcr]
    exact ⟨rfl, rfl⟩
  · intro hr
    have hcr : completeRating o true now = ("good", 60) := by
      rw [completeRating, if_pos rfl]
      dsimp only
      rw [if_neg (not_lt.mpr hr.2), if_pos hr.1]
    rw [hres1, hcr]
    exact ⟨rfl, rfl⟩
  · intro hr
    have hrem : 0 < o.getRemainingTime now := by
      by_contra hz
      have h0 : o.getRemainingTime now = 0 := Nat.eq_zero_of_not_pos hz
      have := hr.1
      rw [h0] at this
      simp at this
    have hcr : completeRating o true now = ("average", 30) := by
      rw [completeRating, if_pos rfl]
      dsimp only
      rw [if_neg (not_lt.mpr (le_trans hr.2 (by norm_num))),
        if_neg (not_lt.mpr hr.2), if_pos hrem]
    rw [hres1, hcr]
    exact ⟨rfl, rfl⟩
  · intro hr
    have hrem : ¬ 0 < o.getRemainingTime now := by
      intro hpos
      have hq : (0 : ℚ) < (o.getRemainingTime now : ℚ) / ((o.timeLimit : ℚ) / 1000) :=
        div_pos (by exact_mod_cast hpos) hT
      exact absurd hr (not_le.mpr hq)
    have hcr : completeRating o true now = ("bad", 0) := by
      rw [completeRating, if_pos rfl]
      dsimp only
      rw [if_neg (not_lt.mpr (le_trans hr (by norm_num))),
        if_neg (not_lt.mpr (le_trans hr (by norm_num))), if_neg hrem]
    rw [hres1, hcr]
    exact ⟨rfl, rfl⟩

/-- Concrete order system for C1: one spawned order, time limit 60 s,
completed at 14 s elapsed (46 s remaining, ratio 46/60 > 3/4). -/
def wSysC1 : OrderSystem :=
  (spawnOrder initOrderSystem (mkOrder "o1" "classic_burger" "Classic Burger" 60000 0)).1

theorem claim_C1_witness :
    ∃ o2, (completeOrder wSysC1 "o1" true 14000).2 = some o2 ∧
      o2.rating = some "perfect" ∧
      (completeOrder wSysC1 "o1" true 14000).1.totalScore = wSysC1.totalScore + 100 := by
  obtain ⟨o2, h2, hp, -, -, -⟩ := claim_C1 wSysC1 "o1" 14000
    (mkOrder "o1" "classic_burger" "Classic Burger" 60000 0) (by decide) (by decide)
  have h46 : (mkOrder "o1" "classic_burger" "Classic Burger" 60000 0).getRemainingTime
      14000 = 46 := by decide
  have hq : (3 : ℚ) / 4 <
      ((mkOrder "o1" "classic_burger" "Classic Burger" 60000 0).getRemainingTime
          14000 : ℚ) /
        (((mkOrder "o1" "classic_burger" "Classic Burger" 60000 0).timeLimit : ℚ) / 1000) := by
    rw [h46]
    norm_num [mkOrder]
  exact ⟨o2, h2, (hp hq).1, (hp hq).2⟩

/-! ## C5: what expiry actually does -/

/-- C5 (amended): expiring a live order marks it `failed` and terminal and
moves it to the completed list, but does not change the cumulative score
(`totalScore`) or the completed-order counter — the −20 the claim derives
from the feedback display is never applied to `stats()`. -/
theorem claim_C5 (sys : OrderSystem) (orderId : String) (o : Order)
    (h : List.lookup orderId sys.activeOrders = some o) :
    (expireOrder sys orderId).2 = some (o.complete "failed") ∧
    (o.complete "failed").rating = some "failed" ∧
    (o.complete "failed").isComplete = true ∧
    List.lookup orderId (expireOrder sys orderId).1.activeOrders = none ∧
    (expireOrder sys orderId).1.completedOrders =
      sys.completedOrders ++ [o.complete "failed"] ∧
    (getStats (expireOrder sys orderId).1).totalScore = (getStats sys).totalScore ∧
    (expireOrder sys orderId).1.ordersCompleted = sys.ordersCompleted := by
  have hres : expireOrder sys orderId =
      ({ sys with
          activeOrders := delA sys.activeOrders orderId,
          completedOrders := sys.completedOrders ++ [o.complete "failed"] },
        some (o.complete "failed")) := by
    rw [expireOrder, h]
  refine ⟨by rw [hres], rfl, rfl, ?_, by rw [hres], ?_, by rw [hres]⟩
  · rw [hres]
    exact lookup_delA_self sys.activeOrders orderId
  · rw [hres]
    rfl

/-- Concrete order system for C5: a single order whose countdown has
reached 0 (time limit 60 s, 60 s elapsed). -/
def wSysC5 : OrderSystem :=
  (spawnOrder initOrderSystem (mkOrder "o5" "fried_chicken" "Fried Chicken" 60000 0)).1

theorem claim_C5_witness :
    (expireOrder wSysC5 "o5").2 =
      some ((mkOrder "o5" "fried_chicken" "Fried Chicken" 60000 0).complete "failed") ∧
    (getStats (expireOrder wSysC5 "o5").1).totalScore = (getStats wSysC5).totalScore :=
  ⟨(claim_C5 wSysC5 "o5" (mkOrder "o5" "fried_chicken" "Fried Chicken" 60000 0)
      (by decide)).1,
    (claim_C5 wSysC5 "o5" (mkOrder "o5" "fried_chicken" "Fried Chicken" 60000 0)
      (by decide)).2.2.2.2.2.1⟩

/-- C5 counterexample: at the moment the countdown reaches 0, expiring the
order leaves the cumulative total score unchanged instead of decreasing it
by 20. -/
theorem claim_C5_counterexample :
    (mkOrder "o5" "fried_chicken" "Fried Chicken" 60000 0).getRemainingTime 60000 = 0 ∧
    (expireOrder wSysC5 "o5").2.isSome = true ∧
    ¬ ((getStats (expireOrder wSysC5 "o5").1).totalScore =
        (getStats wSysC5).totalScore - 20) := by decide

/-! ## C7: which orders completeOrder accepts -/

/-- C7 (amended): `completeOrder` fails (returning `null` with no state
change) exactly when the order id is not among the live (non-terminal)
orders; it succeeds on any live order, whether or not that order is the
currently selected (`isActive`) one. -/
theorem claim_C7 (sys : OrderSystem) (orderId : String) (dishValid : Bool) (now : Nat) :
    (List.lookup orderId sys.activeOrders = none →
      completeOrder sys orderId dishValid now = (sys, none)) ∧
    (∀ o, List.lookup orderId sys.activeOrders = some o →
      (completeOrder sys orderId dishValid now).2 =
        some (o.complete (completeRating o dishValid now).1)) := by
  constructor
  · intro h
    rw [completeOrder, h]
  · intro o h
    rw [completeOrder, h]

/-- Concrete order system for C7: a single spawned order that has never
been selected (`isActive = false`). -/
def wSysC7 : OrderSystem :=
  (spawnOrder initOrderSystem (mkOrder "o7" "fried_chicken" "Fried Chicken" 60000 0)).1

theorem claim_C7_witness :
    completeOrder initOrderSystem "o7" true 0 = (initOrderSystem, none) ∧
    (completeOrder wSysC7 "o7" true 10000).2 =
      some ((mkOrder "o7" "fried_chicken" "Fried Chicken" 60000 0).complete
        (completeRating (mkOrder "o7" "fried_chicken" "Fried Chicken" 60000 0)
          true 10000).1) :=
  ⟨(claim_C7 initOrderSystem "o7" true 0).1 (by decide),
    (claim_C7 wSysC7 "o7" true 10000).2
      (mkOrder "o7" "fried_chicken" "Fried Chicken" 60000 0) (by decide)⟩

/-- C7 counterexample: an order that is not the currently selected order
(no order is active at all) is nevertheless completed successfully, with
state changes — contradicting the claim that completion fails on any order
but the active one. -/
theorem claim_C7_counterexample :
    getActiveOrder wSysC7 = none ∧
    (completeOrder wSysC7 "o7" true 10000).2.isSome = true ∧
    (completeOrder wSysC7 "o7" true 10000).1 ≠ wSysC7 := by decide

/-! ## C8: isValid and the serve gate; C6: when dish instances are reset -/

/-- C8: `isDishValid` is true iff every required ingredient is added and
ready (optional ingredients are irrelevant), and with an active order
whose dish exists, `serveDish` succeeds exactly when `isDishValid` is true
— `isComplete` is not consulted. -/
theorem claim_C8 (g : GameState) (now : Nat) (oid : String) (o : Order) (dish : Dish)
    (hA : getActiveOrder g.orderSystem = some (oid, o))
    (hD : getDish g.dishSystem o.dishId = some dish) :
    ((serveDish g now).2 = isDishValid dish) ∧
    (isDishValid dish = true ↔
      ∀ ing ∈ dish.ingredients, ing.required = true →
        dish.currentIngredients.contains ing.id = true ∧
        ∃ s, List.lookup ing.id dish.ingredientStates = some s ∧ s.isReady = true) := by
  constructor
  · rw [serveDish, hA]
    dsimp only
    rw [hD]
    dsimp only
    by_cases hv : isDishValid dish = true
    · rw [hv]
      rw [if_neg (by simp)]
    · have hv2 : isDishValid dish = false := by
        rw [← Bool.not_eq_true]
        exact hv
      rw [hv2]
      rw [if_pos (by simp)]
  · have hmatch : ∀ ingId,
        ((match List.lookup ingId dish.ingredientStates with
          | some s => s.isReady
          | none => false) = true) ↔
        (∃ s, List.lookup ingId dish.ingredientStates = some s ∧ s.isReady = true) := by
      intro ingId
      cases hl : List.lookup ingId dish.ingredientStates with
      | none => simp
      | some s => simp [hl]
    rw [isDishValid, List.all_eq_true]
    constructor
    · intro hall ing hmem hreq
      have hh := hall ing (List.mem_filter.mpr ⟨hmem, hreq⟩)
      rw [Bool.and_eq_true] at hh
      exact ⟨hh.1, (hmatch ing.id).mp hh.2⟩
    · intro hforall ing hmem
      have hmem2 := List.mem_filter.mp hmem
      have hh := hforall ing hmem2.1 hmem2.2
      rw [Bool.and_eq_true]
      exact ⟨hh.1, (hmatch ing.id).mpr hh.2⟩

/-- C6 (amended): with an active order whose dish exists, serving a valid
dish resets its instance state, and cancelling resets it; but the expiry
path leaves the dish system — and so the dish instance — entirely
untouched. -/
theorem claim_C6 (g : GameState) (now : Nat) (oid : String) (o : Order) (dish : Dish)
    (hA : getActiveOrder g.orderSystem = some (oid, o))
    (hD : getDish g.dishSystem o.dishId = some dish) :
    (isDishValid dish = true →
      getDish (serveDish g now).1.dishSystem o.dishId = some (resetDish dish) ∧
      (resetDish dish).currentIngredients = [] ∧
      (resetDish dish).ingredientStates = [] ∧
      (resetDish dish).finalStepsProgress = 0 ∧
      (resetDish dish).isComplete = false) ∧
    (getDish (cancelCurrentDish g).dishSystem o.dishId = some (resetDish dish)) ∧
    (∀ orderId, (gameExpireOrder g orderId).dishSystem = g.dishSystem) := by
  refine ⟨?_, ?_, fun orderId => rfl⟩
  · intro hv
    rw [serveDish, hA]
    dsimp only
    rw [hD]
    dsimp only
    rw [hv, if_neg (by simp)]
    dsimp only
    rw [sysResetDish, hD]
    dsimp only [getDish]
    exact ⟨lookup_setA_self g.dishSystem.dishes o.dishId (resetDish dish),
      rfl, rfl, rfl, rfl⟩
  · rw [cancelCurrentDish, hA]
    dsimp only
    rw [sysResetDish, hD]
    dsimp only [getDish]
    exact lookup_setA_self g.dishSystem.dishes o.dishId (resetDish dish)

/-- Dish system in which the fried-chicken dish has all three required
ingredients added and the chicken fried (dish valid, final step not done). -/
def sysC8 : DishSystem :=
  (sysUseToolOnDish
    ((sysAddIngredientToDish
      ((sysAddIngredientToDish
        ((sysAddIngredientToDish initialDishSystem "fried_chicken" "chicken_breast").1)
        "fried_chicken" "salt").1)
      "fried_chicken" "pepper").1)
    "fried_chicken" "fry").1

/-- The fried-chicken dish object stored in `sysC8`. -/
def wDishC8 : Dish := (getDish sysC8 "fried_chicken").getD (mkDish "" "" "" [] [] 0 0)

/-- The order of `wGameC8` after selection. -/
def wOrderC8 : Order :=
  { mkOrder "o8" "fried_chicken" "Fried Chicken" 60000 0 with isActive := true }

/-- Game state: valid-but-incomplete fried chicken, its order selected. -/
def wGameC8 : GameState :=
  { dishSystem := sysC8,
    orderSystem := (selectOrder (spawnOrder initOrderSystem
      (mkOrder "o8" "fried_chicken" "Fried Chicken" 60000 0)).1 "o8").1 }

theorem claim_C8_witness :
    wDishC8.isComplete = false ∧ isDishValid wDishC8 = true ∧
    (serveDish wGameC8 10000).2 = true := by
  have h := (claim_C8 wGameC8 10000 "o8" wOrderC8 wDishC8 (by decide) (by decide)).1
  refine ⟨by decide, by decide, ?_⟩
  rw [h]
  decide

theorem claim_C6_witness :
    getDish (serveDish wGameC8 10000).1.dishSystem wOrderC8.dishId =
      some (resetDish wDishC8) ∧
    getDish (cancelCurrentDish wGameC8).dishSystem wOrderC8.dishId =
      some (resetDish wDishC8) ∧
    (gameExpireOrder wGameC8 "o8").dishSystem = wGameC8.dishSystem := by
  have h := claim_C6 wGameC8 10000 "o8" wOrderC8 wDishC8 (by decide) (by decide)
  exact ⟨(h.1 (by decide)).1, h.2.1, h.2.2 "o8"⟩

/-- Game state for the C6 counterexample: fried chicken in progress, its
order spawned (and about to expire). -/
def wGameC6 : GameState :=
  { dishSystem := sysC8,
    orderSystem := (spawnOrder initOrderSystem
      (mkOrder "o6" "fried_chicken" "Fried Chicken" 60000 0)).1 }

/-- C6 counterexample: the order leaves live status via expiry, but the
dish instance keeps its added ingredients — it is not reset. -/
theorem claim_C6_counterexample :
    (expireOrder wGameC6.orderSystem "o6").2.isSome = true ∧
    getDish (gameExpireOrder wGameC6 "o6").dishSystem "fried_chicken" = some wDishC8 ∧
    wDishC8.currentIngredients ≠ [] := by decide

/-! ## C10: at most one active order -/

theorem countP_updA_inactive_le (m : List (String × Order)) (k : String) :
    List.countP (fun p => p.2.isActive)
        (updA m k (fun o => { o with isActive := false })) ≤
      List.countP (fun p => p.2.isActive) m := by
  induction m with
  | nil => exact Nat.le_refl 0
  | cons q m ih =>
    rw [updA_cons, List.countP_cons, List.countP_cons]
    by_cases hb : (q.1 == k) = true
    · rw [if_pos hb]
      simp only [Bool.false_eq_true, if_false]
      omega
    · rw [if_neg hb]
      omega

theorem demote_countP (m : List (String × Order))
    (hnd : (m.map Prod.fst).Nodup)
    (hle : List.countP (fun p => p.2.isActive) m ≤ 1)
    (p : String × Order)
    (hfind : m.find? (fun p => p.2.isActive) = some p) :
    List.countP (fun p => p.2.isActive)
      (updA m p.1 (fun o => { o with isActive := false })) = 0 := by
  induction m with
  | nil => exact Option.noConfusion hfind
  | cons q m ih =>
    simp only [List.map_cons, List.nodup_cons] at hnd
    by_cases hq : q.2.isActive = true
    · rw [List.find?_cons_of_pos m hq] at hfind
      cases hfind
      have hm0 : List.countP (fun p => p.2.isActive) m = 0 := by
        rw [List.countP_cons, if_pos hq] at hle
        omega
      rw [updA_cons]
      have hb : (p.1 == p.1) = true := by simp
      rw [if_pos hb]
      rw [List.countP_cons]
      have hle2 := countP_updA_inactive_le m p.1
      simp only [Bool.false_eq_true, if_false]
      omega
    · rw [List.find?_cons_of_neg m hq] at hfind
      have hpm : p ∈ m := List.mem_of_find?_eq_some hfind
      have hpk : ¬ q.1 = p.1 := by
        intro hh
        exact hnd.1 (hh ▸ List.mem_map_of_mem Prod.fst hpm)
      rw [updA_cons]
      have hb : (q.1 == p.1) = false := beq_eq_false_iff_ne.mpr hpk
      rw [hb]
      simp only [Bool.false_eq_true, if_false]
      rw [List.countP_cons]
      have hq2 : (if q.2.isActive = true then 1 else 0) = 0 := by
        simp [hq]
      rw [hq2]
      have hle2 : List.countP (fun p => p.2.isActive) m ≤ 1 := by
        rw [List.countP_cons] at hle
        omega
      rw [ih hnd.2 hle2 hfind]

theorem promote_countP (m : List (String × Order))
    (hnd : (m.map Prod.fst).Nodup)
    (h0 : List.countP (fun p => p.2.isActive) m = 0) (k : String) :
    List.countP (fun p => p.2.isActive)
      (updA m k (fun o => { o with isActive := true })) ≤ 1 := by
  induction m with
  | nil => exact Nat.zero_le 1
  | cons q m ih =>
    simp only [List.map_cons, List.nodup_cons] at hnd
    rw [List.countP_cons] at h0
    have hm0 : List.countP (fun p => p.2.isActive) m = 0 := by omega
    have hqa : (if q.2.isActive = true then 1 else 0) = 0 := by omega
    rw [updA_cons, List.countP_cons]
    by_cases hqk : q.1 = k
    · have hb : (q.1 == k) = true := by simp [hqk]
      rw [if_pos hb]
      have hnok : k ∉ m.map Prod.fst := by
        rw [← hqk]
        exact hnd.1
      rw [updA_of_not_mem m k _ hnok, hm0]
      simp
    · have hb : (q.1 == k) = false := beq_eq_false_iff_ne.mpr hqk
      rw [hb]
      simp only [Bool.false_eq_true, if_false]
      rw [hqa]
      have := ih hnd.2 hm0
      omega

theorem countP_mapReplace_inactive_le (m : List (String × Order)) (k : String)
    (o : Order) (ho : o.isActive = false) :
    List.countP (fun p => p.2.isActive)
        (m.map (fun p => if p.1 == k then (k, o) else p)) ≤
      List.countP (fun p => p.2.isActive) m := by
  induction m with
  | nil => exact Nat.le_refl 0
  | cons q m ih =>
    rw [List.map_cons, List.countP_cons, List.countP_cons]
    by_cases hb : (q.1 == k) = true
    · rw [if_pos hb]
      simp only [ho, Bool.false_eq_true, if_false]
      omega
    · rw [if_neg hb]
      omega

theorem ordInv_spawn (sys : OrderSystem) (o : Order) (ho : o.isActive = false)
    (h : OrdInv sys) : OrdInv (spawnOrder sys o).1 := by
  unfold spawnOrder
  by_cases hcap : sys.maxActiveOrders ≤ sys.activeOrders.length
  · rw [if_pos hcap]
    exact h
  · rw [if_neg hcap]
    refine ⟨nodup_keys_setA sys.activeOrders o.id o h.1, ?_⟩
    unfold countActive at *
    dsimp only
    unfold setA
    by_cases hany : (sys.activeOrders.any fun p => p.1 == o.id) = true
    · rw [if_pos hany]
      exact Nat.le_trans
        (countP_mapReplace_inactive_le sys.activeOrders o.id o ho) h.2
    · rw [if_neg hany]
      rw [List.countP_append]
      have hsingle : List.countP (fun p => p.2.isActive) [(o.id, o)] = 0 := by
        rw [List.countP_cons]
        simp [ho]
      rw [hsingle]
      simpa using h.2

theorem ordInv_select (sys : OrderSystem) (orderId : String)
    (h : OrdInv sys) : OrdInv (selectOrder sys orderId).1 := by
  unfold selectOrder
  cases hlook : List.lookup orderId sys.activeOrders with
  | none => exact h
  | some o =>
    dsimp only
    have hl1 : ∀ l1, (l1.map Prod.fst).Nodup →
        List.countP (fun p => p.2.isActive) l1 = 0 →
        OrdInv { sys with
          activeOrders := updA l1 orderId (fun o => { o with isActive := true }) } := by
      intro l1 hnd h0
      refine ⟨?_, ?_⟩
      · dsimp only
        rw [keys_updA]
        exact hnd
      · unfold countActive
        dsimp only
        exact promote_countP l1 hnd h0 orderId
    cases hfind : sys.activeOrders.find? (fun p => p.2.isActive) with
    | none =>
      apply hl1
      · exact h.1
      · exact List.countP_eq_zero.mpr (List.find?_eq_none.mp hfind)
    | some p =>
      apply hl1
      · rw [keys_updA]
        exact h.1
      · exact demote_countP sys.activeOrders h.1 h.2 p hfind

theorem ordInv_delA (sys : OrderSystem) (orderId : String)
    (h : OrdInv sys) (ao : List (String × Order))
    (hao : ao = delA sys.activeOrders orderId) (co : List Order) (ms tc : _)
    (oc pc : _) :
    OrdInv { activeOrders := ao, completedOrders := co, maxActiveOrders := ms,
             totalScore := tc, ordersCompleted := oc, perfectOrders := pc } := by
  subst hao
  refine ⟨nodup_keys_delA sys.activeOrders orderId h.1, ?_⟩
  unfold countActive
  dsimp only
  exact Nat.le_trans
    (List.Sublist.countP_le _ (List.filter_sublist sys.activeOrders)) h.2

theorem ordInv_complete (sys : OrderSystem) (orderId : String) (dishValid : Bool)
    (now : Nat) (h : OrdInv sys) :
    OrdInv (completeOrder sys orderId dishValid now).1 := by
  unfold completeOrder
  cases List.lookup orderId sys.activeOrders with
  | none => exact h
  | some o => exact ordInv_delA sys orderId h _ rfl _ _ _ _ _

theorem ordInv_expire (sys : OrderSystem) (orderId : String)
    (h : OrdInv sys) : OrdInv (expireOrder sys orderId).1 := by
  unfold expireOrder
  cases List.lookup orderId sys.activeOrders with
  | none => exact h
  | some o => exact ordInv_delA sys orderId h _ rfl _ _ _ _ _

theorem ordInv_cancel (sys : OrderSystem) (h : OrdInv sys) :
    OrdInv (cancelActive sys) := by
  unfold cancelActive getActiveOrder
  cases hfind : sys.activeOrders.find? (fun p => p.2.isActive) with
  | none => exact h
  | some p =>
    refine ⟨?_, ?_⟩
    · dsimp only
      rw [keys_updA]
      exact h.1
    · unfold countActive
      dsimp only
      rw [demote_countP sys.activeOrders h.1 h.2 p hfind]
      exact Nat.zero_le 1

theorem ordInv_clear (sys : OrderSystem) : OrdInv (clearAllOrders sys) :=
  ⟨List.nodup_nil, Nat.zero_le 1⟩

theorem ordInv_reachable (sys : OrderSystem) (h : OrderReachable sys) :
    OrdInv sys := by
  induction h with
  | refl => exact ⟨List.nodup_nil, Nat.zero_le 1⟩
  | tail h1 h2 ih =>
    cases h2 with
    | spawn id dishId dishName tl ca => exact ordInv_spawn _ _ rfl ih
    | select orderId => exact ordInv_select _ orderId ih
    | complete orderId dishValid now => exact ordInv_complete _ orderId dishValid now ih
    | expire orderId => exact ordInv_expire _ orderId ih
    | cancel => exact ordInv_cancel _ ih
    | clear => exact ordInv_clear _

/-- C10: in every reachable order-system state at most one order is
flagged active, and selection (which first demotes any previously active
order) preserves this bound from any state satisfying the invariant. -/
theorem claim_C10 :
    (∀ sys, OrderReachable sys → countActive sys ≤ 1) ∧
    (∀ sys orderId, OrdInv sys → countActive (selectOrder sys orderId).1 ≤ 1) :=
  ⟨fun sys h => (ordInv_reachable sys h).2,
    fun sys orderId h => (ordInv_select sys orderId h).2⟩

/-- Order system with one spawned, selectable order. -/
def wSysC10 : OrderSystem :=
  (spawnOrder initOrderSystem (mkOrder "oA" "classic_burger" "Classic Burger" 60000 0)).1

theorem claim_C10_witness :
    countActive wSysC10 ≤ 1 ∧ countActive (selectOrder wSysC10 "oA").1 ≤ 1 :=
  ⟨claim_C10.1 wSysC10
      (Relation.ReflTransGen.single
        (OrderStep.spawn initOrderSystem "oA" "classic_burger" "Classic Burger" 60000 0)),
    claim_C10.2 wSysC10 "oA" ⟨by decide, by decide⟩⟩

/-! ## C9: slot-bounded stations -/

theorem any_key_iff_mem_keys (m : List (Nat × CookItem)) (i : Nat) :
    (m.any fun p => p.1 == i) = true ↔ i ∈ m.map Prod.fst := by
  rw [List.any_eq_true, List.mem_map]
  constructor
  · rintro ⟨p, hp, hb⟩
    exact ⟨p, hp, by simpa using hb⟩
  · rintro ⟨p, hp, hb⟩
    exact ⟨p, hp, by simp [hb]⟩

theorem nodup_bounded_length_le (l : List Nat) (n : Nat) (hnd : l.Nodup)
    (hb : ∀ x ∈ l, x < n) : l.length ≤ n := by
  have h1 : l.toFinset.card = l.length := List.toFinset_card_of_nodup hnd
  have h2 : l.toFinset ⊆ Finset.range n := fun x hx =>
    Finset.mem_range.mpr (hb x (List.mem_toFinset.mp hx))
  calc l.length = l.toFinset.card := h1.symm
    _ ≤ (Finset.range n).card := Finset.card_le_card h2
    _ = n := Finset.card_range n

theorem full_all_mem (l : List Nat) (n : Nat) (hnd : l.Nodup)
    (hb : ∀ x ∈ l, x < n) (hlen : l.length = n) : ∀ i < n, i ∈ l := by
  have h2 : l.toFinset ⊆ Finset.range n := fun x hx =>
    Finset.mem_range.mpr (hb x (List.mem_toFinset.mp hx))
  have h3 : l.toFinset = Finset.range n := by
    apply Finset.eq_of_subset_of_card_le h2
    rw [Finset.card_range, List.toFinset_card_of_nodup hnd, hlen]
  intro i hi
  have : i ∈ l.toFinset := by
    rw [h3]
    exact Finset.mem_range.mpr hi
  exact List.mem_toFinset.mp this

theorem not_full_exists_free (l : List Nat) (n : Nat) (hnd : l.Nodup)
    (hlen : l.length < n) : ∃ i, i < n ∧ i ∉ l := by
  by_contra hno
  push_neg at hno
  have hsub : Finset.range n ⊆ l.toFinset := fun x hx =>
    List.mem_toFinset.mpr (hno x (Finset.mem_range.mp hx))
  have hle : n ≤ l.length := by
    calc n = (Finset.range n).card := (Finset.card_range n).symm
      _ ≤ l.toFinset.card := Finset.card_le_card hsub
      _ = l.length := List.toFinset_card_of_nodup hnd
  omega

theorem slotInv_cook (st : Station) (a ing : String) (ct now : Nat)
    (h : SlotInv st) : SlotInv (handleCookingAction st a ing ct now).1 := by
  unfold handleCookingAction
  by_cases hallow : st.allowedActions.contains a = true
  · have hna : (!st.allowedActions.contains a) = false := by rw [hallow]; rfl
    rw [hna]
    simp only [Bool.false_eq_true, if_false]
    by_cases hmulti : 1 < st.cookingSlots
    · rw [if_pos hmulti]
      cases hslot : getNextAvailableSlot st with
      | none => exact h
      | some i =>
        dsimp only
        unfold addItem
        have hi : i < st.cookingSlots := by
          have := List.mem_of_find?_eq_some hslot
          exact List.mem_range.mp this
        rw [if_neg (Nat.not_le.mpr hi)]
        refine ⟨nodup_keys_setA st.currentItems i _ h.1, ?_⟩
        intro p hp
        rcases fst_mem_setA st.currentItems i _ p hp with hpk | hpm
        · rw [hpk]
          exact hi
        · exact h.2 p hpm
    · rw [if_neg hmulti]
      exact h
  · have hna : (!st.allowedActions.contains a) = true := by
      rw [bool_not_eq_true hallow]
      rfl
    rw [if_pos hna]
    exact h

theorem slotInv_collect (st : Station) (slot : Nat)
    (h : SlotInv st) : SlotInv (removeCookedItem st slot).1 := by
  unfold removeCookedItem
  cases List.lookup slot st.currentItems with
  | none => exact h
  | some it =>
    dsimp only
    by_cases hr : it.isReady = true
    · have hna : (!it.isReady) = false := by rw [hr]; rfl
      rw [hna]
      simp only [Bool.false_eq_true, if_false]
      unfold removeItem
      refine ⟨nodup_keys_delA st.currentItems slot h.1, ?_⟩
      intro p hp
      exact h.2 p (mem_delA st.currentItems slot p hp)
    · have hna : (!it.isReady) = true := by
        rw [bool_not_eq_true hr]
        rfl
      rw [if_pos hna]
      exact h

theorem slotInv_tick (st : Station) (slot : Nat)
    (h : SlotInv st) : SlotInv (markSlotReady st slot) := by
  refine ⟨?_, ?_⟩
  · show ((updA st.currentItems slot
      (fun it => { it with isReady := true })).map Prod.fst).Nodup
    rw [keys_updA]
    exact h.1
  · intro p hp
    have hp2 : p ∈ updA st.currentItems slot
        (fun it => { it with isReady := true }) := hp
    obtain ⟨q, hq, hpq⟩ := fst_mem_updA st.currentItems slot _ p hp2
    show p.1 < st.cookingSlots
    rw [hpq]
    exact h.2 q hq

theorem slotInv_reachable (id : String) (cfg : StationDef) (st : Station)
    (h : StationReachable id cfg st) : SlotInv st := by
  induction h with
  | refl => exact ⟨List.nodup_nil, fun p hp => absurd hp (List.not_mem_nil p)⟩
  | tail h1 h2 ih =>
    cases h2 with
    | cook action ingredient cookingTime now => exact slotInv_cook _ action ingredient cookingTime now ih
    | collect slotIndex => exact slotInv_collect _ slotIndex ih
    | timerFired slotIndex => exact slotInv_tick _ slotIndex ih

theorem getNextAvailableSlot_none_of_full (st : Station) (h : SlotInv st)
    (hfull : st.currentItems.length = st.cookingSlots) :
    getNextAvailableSlot st = none := by
  unfold getNextAvailableSlot
  rw [List.find?_eq_none]
  intro i hi
  have hin : i ∈ st.currentItems.map Prod.fst := by
    apply full_all_mem (st.currentItems.map Prod.fst) st.cookingSlots h.1
    · intro x hx
      rw [List.mem_map] at hx
      obtain ⟨p, hp, hpx⟩ := hx
      rw [← hpx]
      exact h.2 p hp
    · rw [List.length_map]
      exact hfull
    · exact List.mem_range.mp hi
  have hany : (st.currentItems.any fun p => p.1 == i) = true :=
    (any_key_iff_mem_keys st.currentItems i).mpr hin
  simp [hany]

theorem getNextAvailableSlot_isSome_of_not_full (st : Station) (h : SlotInv st)
    (hlen : st.currentItems.length < st.cookingSlots) :
    ∃ i, getNextAvailableSlot st = some i ∧ i < st.cookingSlots := by
  cases hslot : getNextAvailableSlot st with
  | some i =>
    refine ⟨i, rfl, ?_⟩
    have := List.mem_of_find?_eq_some hslot
    exact List.mem_range.mp this
  | none =>
    exfalso
    unfold getNextAvailableSlot at hslot
    rw [List.find?_eq_none] at hslot
    obtain ⟨i, hi, hfree⟩ :=
      not_full_exists_free (st.currentItems.map Prod.fst) st.cookingSlots h.1
        (by rw [List.length_map]; exact hlen)
    have := hslot i (List.mem_range.mpr hi)
    have hany : (st.currentItems.any fun p => p.1 == i) = false := by
      rw [← Bool.not_eq_true]
      intro hh
      exact hfree ((any_key_iff_mem_keys st.currentItems i).mp hh)
    simp [hany] at this

/-- C9: in every reachable station state the live jobs have unique,
in-range slot indices, hence at most `cookingSlots` of them; a cooking
submission to a full multi-slot station fails and changes nothing; and
collecting a ready job frees exactly one slot, after which a submission
with an allowed action succeeds again. -/
theorem claim_C9 :
    (∀ id cfg st, StationReachable id cfg st →
      (st.currentItems.map Prod.fst).Nodup ∧
      (∀ p ∈ st.currentItems, p.1 < st.cookingSlots) ∧
      st.currentItems.length ≤ st.cookingSlots) ∧
    (∀ st a ing ct now, SlotInv st →
      st.currentItems.length = st.cookingSlots → 1 < st.cookingSlots →
      handleCookingAction st a ing ct now = (st, false)) ∧
    (∀ st slot it, SlotInv st →
      List.lookup slot st.currentItems = some it → it.isReady = true →
      (removeCookedItem st slot).1.currentItems.length + 1 = st.currentItems.length ∧
      (st.currentItems.length = st.cookingSlots → 1 < st.cookingSlots →
        ∀ a ing ct now, st.allowedActions.contains a = true →
          (handleCookingAction (removeCookedItem st slot).1 a ing ct now).2 = true)) ∧
    (∀ st slot, (markSlotReady st slot).currentItems.length =
      st.currentItems.length) := by
  refine ⟨?_, ?_, ?_, fun st slot => List.length_map st.currentItems _⟩
  · intro id cfg st h
    have hinv := slotInv_reachable id cfg st h
    refine ⟨hinv.1, hinv.2, ?_⟩
    have := nodup_bounded_length_le (st.currentItems.map Prod.fst) st.cookingSlots
      hinv.1 (fun x hx => by
        rw [List.mem_map] at hx
        obtain ⟨p, hp, hpx⟩ := hx
        rw [← hpx]
        exact hinv.2 p hp)
    rw [List.length_map] at this
    exact this
  · intro st a ing ct now hinv hfull hmulti
    unfold handleCookingAction
    by_cases hallow : st.allowedActions.contains a = true
    · have hna : (!st.allowedActions.contains a) = false := by rw [hallow]; rfl
      rw [hna]
      simp only [Bool.false_eq_true, if_false]
      rw [if_pos hmulti, getNextAvailableSlot_none_of_full st hinv hfull]
    · have hna : (!st.allowedActions.contains a) = true := by
        rw [bool_not_eq_true hallow]
        rfl
      rw [if_pos hna]
  · intro st slot it hinv hlook hready
    have hrem : (removeCookedItem st slot).1 =
        { st with currentItems := delA st.currentItems slot } := by
      unfold removeCookedItem
      rw [hlook]
      dsimp only
      have hna : (!it.isReady) = false := by rw [hready]; rfl
      rw [hna]
      simp only [Bool.false_eq_true, if_false]
      rfl
    have hlen : (delA st.currentItems slot).length + 1 = st.currentItems.length :=
      length_delA_of_lookup st.currentItems slot it hinv.1 hlook
    constructor
    · rw [hrem]
      exact hlen
    · intro hfull hmulti a ing ct now hallow
      rw [hrem]
      have hinv2 : SlotInv { st with currentItems := delA st.currentItems slot } :=
        ⟨nodup_keys_delA st.currentItems slot hinv.1,
          fun p hp => hinv.2 p (mem_delA st.currentItems slot p hp)⟩
      have hlen2 : (delA st.currentItems slot).length < st.cookingSlots := by
        omega
      obtain ⟨i, hslot, hi⟩ :=
        getNextAvailableSlot_isSome_of_not_full _ hinv2 hlen2
      unfold handleCookingAction
      have hna : (!st.allowedActions.contains a) = false := by rw [hallow]; rfl
      rw [hna]
      simp only [Bool.false_eq_true, if_false]
      rw [if_pos hmulti, hslot]
      dsimp only
      unfold addItem
      rw [if_neg (Nat.not_le.mpr hi)]

/-- A full two-slot fryer station with a ready job in slot 0. -/
def wStFull : Station :=
  { id := "fryer", allowedActions := ["fry"], cookingSlots := 2,
    currentItems := [(0, ⟨"chicken_breast", "fry", 0, 5000, true⟩),
                     (1, ⟨"chicken_breast", "fry", 100, 5000, false⟩)] }

theorem claim_C9_witness :
    (mkStation "grill" ⟨"Grill Station", ["grill"], some 3⟩).currentItems.length ≤
      (mkStation "grill" ⟨"Grill Station", ["grill"], some 3⟩).cookingSlots ∧
    handleCookingAction wStFull "fry" "chicken_breast" 5000 200 = (wStFull, false) ∧
    (handleCookingAction (removeCookedItem wStFull 0).1 "fry" "chicken_breast"
      5000 200).2 = true :=
  ⟨(claim_C9.1 "grill" ⟨"Grill Station", ["grill"], some 3⟩ _
      Relation.ReflTransGen.refl).2.2,
    claim_C9.2.1 wStFull "fry" "chicken_breast" 5000 200
      ⟨by decide, by decide⟩ (by decide) (by decide),
    (claim_C9.2.2.1 wStFull 0 ⟨"chicken_breast", "fry", 0, 5000, true⟩
      ⟨by decide, by decide⟩ (by decide) (by decide)).2 (by decide) (by decide)
      "fry" "chicken_breast" 5000 200 (by decide)⟩

end CookTap
